import Mathlib

/-!
Verification of the KloudyKare conversational-intake pipeline.

The definitions below are a shallow embedding of the JavaScript source:
* `classifyContent` embeds the MCP content classifier (mcp server, `classifyContent`);
* `detectPHI` / `redactPHI` embed the PHI detector and redactor built on the five
  `phiPatterns` regular expressions;
* `extractInformationFromSMS`, `determineConversationStage` embed the SMS field
  extractor and stage selector from `api/src/routes/notifications.js`;
* `updateProfileData`, `calculateCompletionPercentage`, `getMissingProfileInfo`,
  `generateNextQuestions` embed the profile service from the profile-service module.

Text is modelled as `List Char`; JavaScript regular expressions are embedded as
explicit matchers over character lists with word-boundary (`\b`) semantics; the
global-replace operation is embedded as a left-to-right scan that skips over each
match, exactly as the JS engine finds non-overlapping matches in its input string.
-/

namespace KK

/-- An apostrophe character, used inside the user-facing strings of the source. -/
def apoC : Char := Char.ofNat 39

/-- Apostrophe as a one-character string. -/
def apoS : String := String.mk [apoC]

/-- ASCII decimal digit, the JS `\d` class. -/
def isDigitC (c : Char) : Bool := decide ('0' ≤ c ∧ c ≤ '9')

/-- ASCII uppercase letter. -/
def isUpperC (c : Char) : Bool := decide ('A' ≤ c ∧ c ≤ 'Z')

/-- ASCII lowercase letter. -/
def isLowerC (c : Char) : Bool := decide ('a' ≤ c ∧ c ≤ 'z')

/-- ASCII letter. -/
def isAlphaC (c : Char) : Bool := isUpperC c || isLowerC c

/-- The JS `\w` word-character class `[A-Za-z0-9_]`, which drives `\b` boundaries. -/
def isWordC (c : Char) : Bool := isAlphaC c || isDigitC c || c = '_'

/-- The JS `\s` whitespace class (ASCII part). -/
def isSpaceC (c : Char) : Bool :=
  c = ' ' || c = '\t' || c = '\n' || c = '\r' || c = Char.ofNat 11 || c = Char.ofNat 12

/-- Lowercasing as done by `String.prototype.toLowerCase` on ASCII text. -/
def toLowerL (s : List Char) : List Char := s.map Char.toLower

/-- Word-ness of an optional preceding character; the start of the string counts
as a non-word position for `\b`. -/
def wOpt : Option Char → Bool
  | none => false
  | some c => isWordC c

/-- Word-ness of the first character of a (possibly empty) suffix; the end of the
string counts as a non-word position for `\b`. -/
def wordHead : List Char → Bool
  | [] => false
  | c :: _ => isWordC c

/-- A `\b` boundary holds between two positions iff exactly one side is a word
character. -/
def bdry (a b : Bool) : Bool := a != b

/-- `String.prototype.includes`: substring containment, scanning left to right. -/
def includesL (needle : List Char) : List Char → Bool
  | [] => needle.isPrefixOf []
  | c :: t => needle.isPrefixOf (c :: t) || includesL needle t

/-- JS `String.prototype.trim` on a character list. -/
def trimL (s : List Char) : List Char :=
  ((s.dropWhile isSpaceC).reverse.dropWhile isSpaceC).reverse

/-! ## Content classification (mcp server `classifyContent`) -/

/-- The MCP policy configuration: the four ordered keyword/phrase sets read from
`policy.yaml` (`emergency_handling.keywords`, `strict_blocks`, `soft_blocks`, and
the three `allowed_domains` groups). -/
structure Policy where
  emergencyKeywords : List (List Char)
  strictBlocks : List (List Char)
  softBlocks : List (List Char)
  primaryServices : List (List Char)
  administrative : List (List Char)
  informational : List (List Char)

/-- The classification record `{category, action, priority}`. -/
structure Classification where
  category : String
  action : String
  priority : String
deriving DecidableEq, Repr

/-- `classifyContent(message)`: lowercase the message once, then test the policy
tiers in order — emergency keywords, strict blocks, soft blocks, allowed-domain
phrases — each by case-insensitive substring containment (`String.includes`). -/
def classifyContent (policy : Policy) (message : List Char) : Classification :=
  let lowerMessage := toLowerL message
  if policy.emergencyKeywords.any (fun kw => includesL (toLowerL kw) lowerMessage) then
    ⟨"emergency", "immediate_redirect", "critical"⟩
  else if policy.strictBlocks.any (fun b => includesL (toLowerL b) lowerMessage) then
    ⟨"blocked", "strict_block", "high"⟩
  else if policy.softBlocks.any (fun b => includesL (toLowerL b) lowerMessage) then
    ⟨"soft_block", "brief_redirect", "medium"⟩
  else
    let allowedDomains := policy.primaryServices ++ policy.administrative ++ policy.informational
    if allowedDomains.any (fun d => includesL (toLowerL d) lowerMessage) then
      ⟨"allowed", "process", "low"⟩
    else
      ⟨"unknown", "brief_redirect", "low"⟩

/-- A JavaScript value as far as the message-handling entry points distinguish
them: a string or one of the non-string cases the validator rejects. -/
inductive JSVal where
  | str (s : List Char)
  | nullV
  | undefV
  | numV (n : Int)
deriving DecidableEq

/-- Calling `classifyContent` on a raw JS value: the first statement evaluates
`message.toLowerCase()`, which throws a `TypeError` unless the value is a
string (there is no try/catch inside `classifyContent`). -/
def classifyContentJS (policy : Policy) (v : JSVal) : Except String Classification :=
  match v with
  | .str s => .ok (classifyContent policy s)
  | _ => .error "TypeError"

/-! ## Profile data model (profile service) -/

/-- A `user_profiles` row, restricted to the columns the profile service reads or
writes.  String columns are `Option String` (`none` = SQL NULL); `age` is the one
numeric column the SMS pipeline writes. -/
structure Profile where
  first_name : Option String := none
  last_name : Option String := none
  middle_name : Option String := none
  preferred_name : Option String := none
  date_of_birth : Option String := none
  age : Option Int := none
  gender : Option String := none
  email_address : Option String := none
  street_address : Option String := none
  apartment_unit : Option String := none
  city : Option String := none
  state : Option String := none
  zip_code : Option String := none
  county : Option String := none
  medicaid_id : Option String := none
  medicare_id : Option String := none
  insurance_provider : Option String := none
  emergency_contact_1_name : Option String := none
  emergency_contact_1_phone : Option String := none
  emergency_contact_1_relationship : Option String := none
  primary_care_physician : Option String := none
  medical_conditions : Option String := none
  medications : Option String := none
  allergies : Option String := none
  mobility_needs : Option String := none
  dietary_restrictions : Option String := none
  preferred_caregiver_gender : Option String := none
  language_preference : Option String := none
  service_location : Option String := none
  primary_phone : Option String := none
  secondary_phone : Option String := none
  sms_conversation_count : Nat := 0
  updated_at : Option Nat := none
  last_updated_via_sms : Option Nat := none
deriving DecidableEq, Repr

/-- The `extractedData` object passed to `updateProfileData`: a sparse fragment
whose keys are the camel-case names of `fieldMapping` together with
`phoneNumber`, which the extractor emits but `fieldMapping` does not map. -/
structure Fragment where
  firstName : Option String := none
  lastName : Option String := none
  middleName : Option String := none
  preferredName : Option String := none
  dateOfBirth : Option String := none
  age : Option Int := none
  gender : Option String := none
  email : Option String := none
  streetAddress : Option String := none
  apartmentUnit : Option String := none
  city : Option String := none
  state : Option String := none
  zipCode : Option String := none
  county : Option String := none
  medicaidId : Option String := none
  medicareId : Option String := none
  insuranceProvider : Option String := none
  emergencyContact1Name : Option String := none
  emergencyContact1Phone : Option String := none
  emergencyContact1Relationship : Option String := none
  primaryCarePhysician : Option String := none
  medicalConditions : Option String := none
  medications : Option String := none
  allergies : Option String := none
  mobilityNeeds : Option String := none
  dietaryRestrictions : Option String := none
  preferredCaregiverGender : Option String := none
  languagePreference : Option String := none
  serviceLocation : Option String := none
  phoneNumber : Option String := none
deriving DecidableEq, Repr

/-- An all-NULL fragment (`{}`). -/
def emptyFragment : Fragment := {}

/-- An all-NULL profile, as created for a first inbound message before any field
has been stored. -/
def blankProfile : Profile := {}

/-- One column assignment of the generated `UPDATE` statement: a fragment key
that is present (non-null, non-undefined) overwrites the column, otherwise the
column keeps its old value. -/
def mergeField {α : Type} (fragVal : Option α) (oldVal : Option α) : Option α :=
  match fragVal with
  | some v => some v
  | none => oldVal

/-- Whether `extractedData` holds at least one non-null key that `fieldMapping`
maps to a column (`updateFields.length > 0` in the source); `phoneNumber` is not
in `fieldMapping` and does not count. -/
def hasMappedField (f : Fragment) : Bool :=
  f.firstName.isSome || f.lastName.isSome || f.middleName.isSome ||
  f.preferredName.isSome || f.dateOfBirth.isSome || f.age.isSome ||
  f.gender.isSome || f.email.isSome || f.streetAddress.isSome ||
  f.apartmentUnit.isSome || f.city.isSome || f.state.isSome ||
  f.zipCode.isSome || f.county.isSome || f.medicaidId.isSome ||
  f.medicareId.isSome || f.insuranceProvider.isSome ||
  f.emergencyContact1Name.isSome || f.emergencyContact1Phone.isSome ||
  f.emergencyContact1Relationship.isSome || f.primaryCarePhysician.isSome ||
  f.medicalConditions.isSome || f.medications.isSome || f.allergies.isSome ||
  f.mobilityNeeds.isSome || f.dietaryRestrictions.isSome ||
  f.preferredCaregiverGender.isSome || f.languagePreference.isSome ||
  f.serviceLocation.isSome

/-- `updateProfileData(profileId, extractedData)`: build the column assignments
from the mapped non-null fragment keys; if there are none, return the stored row
unchanged; otherwise apply the assignments and additionally set
`updated_at = NOW()`, `last_updated_via_sms = NOW()` and
`sms_conversation_count = sms_conversation_count + 1`.  `now` stands for the SQL
`NOW()` timestamp. -/
def updateProfileData (now : Nat) (p : Profile) (f : Fragment) : Profile :=
  if hasMappedField f then
    { p with
      first_name := mergeField f.firstName p.first_name
      last_name := mergeField f.lastName p.last_name
      middle_name := mergeField f.middleName p.middle_name
      preferred_name := mergeField f.preferredName p.preferred_name
      date_of_birth := mergeField f.dateOfBirth p.date_of_birth
      age := mergeField f.age p.age
      gender := mergeField f.gender p.gender
      email_address := mergeField f.email p.email_address
      street_address := mergeField f.streetAddress p.street_address
      apartment_unit := mergeField f.apartmentUnit p.apartment_unit
      city := mergeField f.city p.city
      state := mergeField f.state p.state
      zip_code := mergeField f.zipCode p.zip_code
      county := mergeField f.county p.county
      medicaid_id := mergeField f.medicaidId p.medicaid_id
      medicare_id := mergeField f.medicareId p.medicare_id
      insurance_provider := mergeField f.insuranceProvider p.insurance_provider
      emergency_contact_1_name := mergeField f.emergencyContact1Name p.emergency_contact_1_name
      emergency_contact_1_phone := mergeField f.emergencyContact1Phone p.emergency_contact_1_phone
      emergency_contact_1_relationship :=
        mergeField f.emergencyContact1Relationship p.emergency_contact_1_relationship
      primary_care_physician := mergeField f.primaryCarePhysician p.primary_care_physician
      medical_conditions := mergeField f.medicalConditions p.medical_conditions
      medications := mergeField f.medications p.medications
      allergies := mergeField f.allergies p.allergies
      mobility_needs := mergeField f.mobilityNeeds p.mobility_needs
      dietary_restrictions := mergeField f.dietaryRestrictions p.dietary_restrictions
      preferred_caregiver_gender :=
        mergeField f.preferredCaregiverGender p.preferred_caregiver_gender
      language_preference := mergeField f.languagePreference p.language_preference
      service_location := mergeField f.serviceLocation p.service_location
      updated_at := some now
      last_updated_via_sms := some now
      sms_conversation_count := p.sms_conversation_count + 1 }
  else
    p

/-- A field counts as present when the stored value is non-null and its string
form is non-empty after trimming (`profile[field] && profile[field].toString().trim()`). -/
def presentB (v : Option String) : Bool :=
  match v with
  | none => false
  | some s => !(trimL s.toList).isEmpty

/-- Dynamic column access `profile[field]` for the column names that appear in
the scoring and missing-field lists. -/
def getCol (fld : String) (p : Profile) : Option String :=
  if fld = "first_name" then p.first_name
  else if fld = "last_name" then p.last_name
  else if fld = "primary_phone" then p.primary_phone
  else if fld = "zip_code" then p.zip_code
  else if fld = "date_of_birth" then p.date_of_birth
  else if fld = "street_address" then p.street_address
  else if fld = "city" then p.city
  else if fld = "state" then p.state
  else if fld = "emergency_contact_1_name" then p.emergency_contact_1_name
  else if fld = "emergency_contact_1_phone" then p.emergency_contact_1_phone
  else if fld = "middle_name" then p.middle_name
  else if fld = "preferred_name" then p.preferred_name
  else if fld = "email_address" then p.email_address
  else if fld = "gender" then p.gender
  else if fld = "secondary_phone" then p.secondary_phone
  else if fld = "apartment_unit" then p.apartment_unit
  else if fld = "county" then p.county
  else if fld = "medicaid_id" then p.medicaid_id
  else if fld = "medicare_id" then p.medicare_id
  else if fld = "primary_care_physician" then p.primary_care_physician
  else none

/-- The required-field list of `calculateCompletionPercentage` (40 points each). -/
def requiredFields : List String :=
  ["first_name", "last_name", "primary_phone", "zip_code"]

/-- The important-field list of `calculateCompletionPercentage` (30 points each). -/
def importantFields : List String :=
  ["date_of_birth", "street_address", "city", "state",
   "emergency_contact_1_name", "emergency_contact_1_phone"]

/-- The optional-field list of `calculateCompletionPercentage` (10 points each). -/
def optionalFields : List String :=
  ["middle_name", "preferred_name", "email_address", "gender",
   "secondary_phone", "apartment_unit", "county", "medicaid_id",
   "medicare_id", "primary_care_physician"]

/-- Accumulate `weight` into the score for every present field of `flds`. -/
def tierScore (p : Profile) (flds : List String) (weight : Nat) : Nat :=
  flds.foldl (fun acc fld => acc + (if presentB (getCol fld p) then weight else 0)) 0

/-- The achieved score of `calculateCompletionPercentage`. -/
def completionScore (p : Profile) : Nat :=
  tierScore p requiredFields 40 + tierScore p importantFields 30 +
    tierScore p optionalFields 10

/-- The maximum score of `calculateCompletionPercentage` (each field contributes
its weight to `maxScore` unconditionally). -/
def completionMaxScore : Nat :=
  requiredFields.length * 40 + importantFields.length * 30 + optionalFields.length * 10

/-- `Math.round(num/den * 100)` for non-negative integers `num ≤ den`, `den > 0`:
round-half-up of the exact rational `num*100/den`. -/
def jsRoundPct (num den : Nat) : Nat := (2 * (num * 100) + den) / (2 * den)

/-- `calculateCompletionPercentage`: weighted coverage of required (40),
important (30) and optional (10) fields, as a percentage rounded to the nearest
integer (`Math.round((score / maxScore) * 100)`). -/
def calculateCompletionPercentage (p : Profile) : Nat :=
  if completionMaxScore > 0 then jsRoundPct (completionScore p) completionMaxScore else 0

/-- The ordered field/label list that `getMissingProfileInfo` checks. -/
def missingChecklist : List (String × String) :=
  [("first_name", "First Name"),
   ("last_name", "Last Name"),
   ("date_of_birth", "Date of Birth"),
   ("street_address", "Street Address"),
   ("city", "City"),
   ("state", "State"),
   ("zip_code", "ZIP Code"),
   ("emergency_contact_1_name", "Emergency Contact Name"),
   ("emergency_contact_1_phone", "Emergency Contact Phone")]

/-- `getMissingProfileInfo`: every checklist field that is absent or blank after
trimming, in checklist order, with its label (all marked high priority). -/
def getMissingProfileInfo (p : Profile) : List (String × String) :=
  missingChecklist.filter (fun fl => !presentB (getCol fl.1 p))

/-- `generateNextQuestions(profileId, conversationStage)`: a closing
acknowledgment when nothing is missing; otherwise one stage-specific question
for the first still-missing field of the stage (intake, address,
emergency_contact), or, for any other stage, a generic request for the first
missing checklist field; if a slot-specific stage has no missing field of its
own, a generic thank-you. -/
def generateNextQuestions (p : Profile) (conversationStage : String) : List String :=
  let missing := getMissingProfileInfo p
  if missing.isEmpty then
    ["Thank you! Your profile is complete. Is there anything you" ++ apoS ++ "d like to update?"]
  else
    let questions : List String :=
      if conversationStage = "intake" then
        if (missing.find? (fun m => m.1 = "first_name")).isSome then
          ["What" ++ apoS ++ "s your first name?"]
        else if (missing.find? (fun m => m.1 = "last_name")).isSome then
          ["What" ++ apoS ++ "s your last name?"]
        else if (missing.find? (fun m => m.1 = "date_of_birth")).isSome then
          ["What" ++ apoS ++ "s your date of birth? (MM/DD/YYYY)"]
        else []
      else if conversationStage = "address" then
        if (missing.find? (fun m => m.1 = "street_address")).isSome then
          ["What" ++ apoS ++ "s your street address?"]
        else if (missing.find? (fun m => m.1 = "city")).isSome then
          ["What city do you live in?"]
        else if (missing.find? (fun m => m.1 = "zip_code")).isSome then
          ["What" ++ apoS ++ "s your ZIP code?"]
        else []
      else if conversationStage = "emergency_contact" then
        if (missing.find? (fun m => m.1 = "emergency_contact_1_name")).isSome then
          ["Who should we contact in case of emergency?"]
        else if (missing.find? (fun m => m.1 = "emergency_contact_1_phone")).isSome then
          ["What" ++ apoS ++ "s their phone number?"]
        else []
      else
        match missing with
        | [] => []
        | next :: _ => ["Could you provide your " ++ next.2.toLower ++ "?"]
    if questions.isEmpty then ["Thank you for the information!"] else questions

/-! ## SMS field extraction (`extractInformationFromSMS`) -/

/-- Match a case-insensitive literal (given in lowercase) against the head of the
input, returning the remainder on success. -/
def litCI : List Char → List Char → Option (List Char)
  | [], s => some s
  | _ :: _, [] => none
  | l :: lt, c :: cs => if Char.toLower c = l then litCI lt cs else none

/-- Leftmost-match scan: try the positional matcher at every position, left to
right, tracking the preceding character for `\b` tests. -/
def scanFirst {β : Type} (f : Option Char → List Char → Option β) :
    Option Char → List Char → Option β
  | prev, [] => f prev []
  | prev, c :: cs =>
    match f prev (c :: cs) with
    | some r => some r
    | none => scanFirst f (some c) cs

/-- The capture class `[a-zA-Z\s]` of the three name patterns. -/
def nameClassC (c : Char) : Bool := isAlphaC c || isSpaceC c

/-- One name pattern at a position: the case-insensitive literal followed by a
non-empty greedy `[a-zA-Z\s]+` capture. -/
def namePatAt (lit : List Char) (_prev : Option Char) (s : List Char) :
    Option (List Char) :=
  (litCI lit s).bind fun rest =>
    let cap := rest.takeWhile nameClassC
    if cap.isEmpty then none else some cap

/-- `/\b(\d{5})\b/`: five digits delimited by word boundaries. -/
def zipAt (prev : Option Char) (s : List Char) : Option (List Char) :=
  match s with
  | a :: b :: c :: d :: e :: rest =>
    if [a, b, c, d, e].all isDigitC && bdry (wOpt prev) (isWordC a) &&
        bdry (isWordC e) (wordHead rest) then
      some [a, b, c, d, e]
    else none
  | _ => none

/-- Take exactly `n` digits from the head, returning them and the remainder. -/
def takeDigits : Nat → List Char → Option (List Char × List Char)
  | 0, s => some ([], s)
  | _ + 1, [] => none
  | n + 1, c :: cs =>
    if isDigitC c then (takeDigits n cs).map (fun p => (c :: p.1, p.2)) else none

/-- Consume an optional `[-.]` separator (greedy, as `[-.]?`). -/
def optSep (s : List Char) : List Char × List Char :=
  match s with
  | c :: cs => if c = '-' || c = '.' then ([c], cs) else ([], s)
  | [] => ([], s)

/-- `/\b(\d{3}[-.]?\d{3}[-.]?\d{4})\b/` at a position, returning the captured
span.  The optional separators are forced: a separator character can never
satisfy the following `\d`. -/
def phonePatAt (prev : Option Char) (s : List Char) : Option (List Char) :=
  (takeDigits 3 s).bind fun (d1, r1) =>
    let (s1, r1') := optSep r1
    (takeDigits 3 r1').bind fun (d2, r2) =>
      let (s2, r2') := optSep r2
      (takeDigits 4 r2').bind fun (d3, r3) =>
        if bdry (wOpt prev) true && bdry true (wordHead r3) then
          some (d1 ++ s1 ++ d2 ++ s2 ++ d3)
        else none

/-- Alphanumeric class `[a-zA-Z0-9]`. -/
def alnumC (c : Char) : Bool := isAlphaC c || isDigitC c

/-- Tail of the medicaid pattern after the optional `id`/`number` word:
`\s*:?\s*([a-zA-Z0-9]+)`. -/
def medicaidTail (s : List Char) : Option (List Char) :=
  let s3 := s.dropWhile isSpaceC
  let s4 := match s3 with
    | ':' :: rest => rest
    | _ => s3
  let s5 := s4.dropWhile isSpaceC
  let cap := s5.takeWhile alnumC
  if cap.isEmpty then none else some cap

/-- `/medicaid\s*(?:id|number)?\s*:?\s*([a-zA-Z0-9]+)/i` at a position.  The
optional `id`/`number` group backtracks: if taking it leaves no alphanumeric
capture, the group matches empty instead. -/
def medicaidPatAt (_prev : Option Char) (s : List Char) : Option (List Char) :=
  (litCI "medicaid".toList s).bind fun r1 =>
    let s1 := r1.dropWhile isSpaceC
    match (litCI "id".toList s1).bind medicaidTail with
    | some cap => some cap
    | none =>
      match (litCI "number".toList s1).bind medicaidTail with
      | some cap => some cap
      | none => medicaidTail s1

/-- After the digits of the age pattern: `\s*(?:years old|yo)\b`. -/
def ageTail (s : List Char) : Bool :=
  let s1 := s.dropWhile isSpaceC
  match litCI "years old".toList s1 with
  | some r => bdry (isWordC 'd') (wordHead r)
  | none =>
    match litCI "yo".toList s1 with
    | some r => bdry (isWordC 'o') (wordHead r)
    | none => false

/-- One alternation branch of the age pattern, after the leading `\b`:
the literal, then `\s*`, then the greedy backtracking `\d{1,3}` capture,
then `\s*(?:years old|yo)\b`. -/
def ageBranch (lit : List Char) (s : List Char) : Option (List Char) :=
  (litCI lit s).bind fun r1 =>
    let r2 := r1.dropWhile isSpaceC
    let tryD : Nat → Option (List Char) := fun n =>
      (takeDigits n r2).bind fun p =>
        if ageTail p.2 then some p.1 else none
    match tryD 3 with
    | some ds => some ds
    | none =>
      match tryD 2 with
      | some ds => some ds
      | none => tryD 1

/-- `/\b(?:i am|i'm)\s*(\d{1,3})\s*(?:years old|yo)\b/i` at a position,
returning the captured digit group. -/
def agePatAt (prev : Option Char) (s : List Char) : Option (List Char) :=
  if bdry (wOpt prev) (wordHead s) then
    match ageBranch "i am".toList s with
    | some ds => some ds
    | none => ageBranch ['i', apoC, 'm'] s
  else none

/-- The class `[a-zA-Z0-9\s]` of the street-address pattern body. -/
def addrClassC (c : Char) : Bool := isAlphaC c || isDigitC c || isSpaceC c

/-- The street-suffix alternation of the address pattern, in source order. -/
def streetSuffixes : List (List Char) :=
  ["street".toList, "st".toList, "avenue".toList, "ave".toList, "road".toList,
   "rd".toList, "drive".toList, "dr".toList, "lane".toList, "ln".toList,
   "way".toList, "blvd".toList, "boulevard".toList]

/-- Try each street suffix at the given remainder: the case-insensitive literal
followed by a `\b`. Returns the matched suffix characters. -/
def trySuffixes (rest : List Char) : List (List Char) → Option (List Char)
  | [] => none
  | suf :: more =>
    match litCI suf rest with
    | some r =>
      if bdry true (wordHead r) then some (rest.take suf.length)
      else trySuffixes rest more
    | none => trySuffixes rest more

/-- Backtracking over the greedy `[a-zA-Z0-9\s]+` body: try suffix positions
from `k` down to 2. -/
def addrBody (afterDigits : List Char) : Nat → Option (List Char)
  | 0 => none
  | 1 => none
  | k + 2 =>
    match trySuffixes (afterDigits.drop (k + 2)) streetSuffixes with
    | some suf => some (afterDigits.take (k + 2) ++ suf)
    | none => addrBody afterDigits (k + 1)

/-- `/\b(\d+\s+[a-zA-Z0-9\s]+(?:street|st|...|boulevard))\b/i` at a position.
`\d+` is forced to the whole digit run (the following `\s+` cannot match a
digit); the body backtracks from the maximal class run. -/
def addressPatAt (prev : Option Char) (s : List Char) : Option (List Char) :=
  let ds := s.takeWhile isDigitC
  if ds.isEmpty || !bdry (wOpt prev) true then none
  else
    let afterDigits := s.drop ds.length
    match afterDigits with
    | c :: _ =>
      if isSpaceC c then
        (addrBody afterDigits (afterDigits.takeWhile addrClassC).length).map
          (fun body => ds ++ body)
      else none
    | [] => none

/-- `parseInt` on a captured digit group. -/
def parseIntL (ds : List Char) : Int :=
  Int.ofNat (ds.foldl (fun acc c => acc * 10 + (c.toNat - '0'.toNat)) 0)

/-- `extractInformationFromSMS(message)`: run the name patterns in order (first
match wins), then the zip, phone, medicaid, age and address patterns, each
independently, and collect whatever matched into a sparse fragment. -/
def extractInformationFromSMS (message : List Char) : Fragment :=
  let nameCap :=
    match scanFirst (namePatAt "my name is ".toList) none message with
    | some cap => some cap
    | none =>
      match scanFirst (namePatAt (['i', apoC, 'm'] ++ [' '])) none message with
      | some cap => some cap
      | none => scanFirst (namePatAt "i am ".toList) none message
  let f0 : Fragment := {}
  let f1 :=
    match nameCap with
    | none => f0
    | some cap =>
      let fullName := trimL cap
      let nameParts := fullName.splitOn ' '
      if nameParts.length ≥ 2 then
        { f0 with
          firstName := some (String.mk (nameParts.headD []))
          lastName := some (String.mk (nameParts.getLastD []))
          middleName :=
            if nameParts.length > 2 then
              some (String.mk (List.intercalate [' '] (nameParts.drop 1).dropLast))
            else none }
      else
        { f0 with firstName := some (String.mk fullName) }
  let f2 :=
    match scanFirst zipAt none message with
    | some z => { f1 with zipCode := some (String.mk z) }
    | none => f1
  let f3 :=
    match scanFirst phonePatAt none message with
    | some ph =>
      { f2 with phoneNumber := some (String.mk (ph.filter (fun c => !(c = '-' || c = '.')))) }
    | none => f2
  let f4 :=
    match scanFirst medicaidPatAt none message with
    | some m => { f3 with medicaidId := some (String.mk m) }
    | none => f3
  let f5 :=
    match scanFirst agePatAt none message with
    | some ds => { f4 with age := some (parseIntL ds) }
    | none => f4
  match scanFirst addressPatAt none message with
  | some addr => { f5 with streetAddress := some (String.mk addr) }
  | none => f5

/-- `extractInformationFromSMS` run on a raw JS value: the whole body is wrapped
in try/catch, and `message.toLowerCase()` throws on a non-string, so malformed
input yields the empty fragment instead of an error. -/
def extractInformationFromSMSJS (v : JSVal) : Fragment :=
  match v with
  | .str s => extractInformationFromSMS s
  | _ => emptyFragment

/-- JS truthiness of an optional string field (`undefined` and `""` are falsy). -/
def jsTruthy (o : Option String) : Bool :=
  match o with
  | none => false
  | some s => !(s == "")

/-- `determineConversationStage(message, extractedData)`: content sniffing in
fixed precedence order. -/
def determineConversationStage (message : List Char) (f : Fragment) : String :=
  let lower := toLowerL message
  if includesL "address".toList lower || jsTruthy f.streetAddress || jsTruthy f.zipCode then
    "address"
  else if includesL "emergency".toList lower || includesL "contact".toList lower then
    "emergency_contact"
  else if includesL "medical".toList lower || includesL "condition".toList lower ||
      includesL "medication".toList lower then
    "medical"
  else if jsTruthy f.firstName || jsTruthy f.lastName || jsTruthy f.medicaidId then
    "intake"
  else
    "general"

/-! ## Key-indexed view of the merge (for stating last-write-wins) -/

/-- The camel-case fragment keys that `fieldMapping` maps to string columns. -/
inductive FKey where
  | firstName | lastName | middleName | preferredName | dateOfBirth
  | gender | email | streetAddress | apartmentUnit | city | state
  | zipCode | county | medicaidId | medicareId | insuranceProvider
  | emergencyContact1Name | emergencyContact1Phone | emergencyContact1Relationship
  | primaryCarePhysician | medicalConditions | medications | allergies
  | mobilityNeeds | dietaryRestrictions | preferredCaregiverGender
  | languagePreference | serviceLocation
deriving DecidableEq

/-- Fragment value of a mapped key. -/
def fragGet (k : FKey) (f : Fragment) : Option String :=
  match k with
  | .firstName => f.firstName
  | .lastName => f.lastName
  | .middleName => f.middleName
  | .preferredName => f.preferredName
  | .dateOfBirth => f.dateOfBirth
  | .gender => f.gender
  | .email => f.email
  | .streetAddress => f.streetAddress
  | .apartmentUnit => f.apartmentUnit
  | .city => f.city
  | .state => f.state
  | .zipCode => f.zipCode
  | .county => f.county
  | .medicaidId => f.medicaidId
  | .medicareId => f.medicareId
  | .insuranceProvider => f.insuranceProvider
  | .emergencyContact1Name => f.emergencyContact1Name
  | .emergencyContact1Phone => f.emergencyContact1Phone
  | .emergencyContact1Relationship => f.emergencyContact1Relationship
  | .primaryCarePhysician => f.primaryCarePhysician
  | .medicalConditions => f.medicalConditions
  | .medications => f.medications
  | .allergies => f.allergies
  | .mobilityNeeds => f.mobilityNeeds
  | .dietaryRestrictions => f.dietaryRestrictions
  | .preferredCaregiverGender => f.preferredCaregiverGender
  | .languagePreference => f.languagePreference
  | .serviceLocation => f.serviceLocation

/-- Profile column that `fieldMapping` assigns to a mapped key. -/
def profGet (k : FKey) (p : Profile) : Option String :=
  match k with
  | .firstName => p.first_name
  | .lastName => p.last_name
  | .middleName => p.middle_name
  | .preferredName => p.preferred_name
  | .dateOfBirth => p.date_of_birth
  | .gender => p.gender
  | .email => p.email_address
  | .streetAddress => p.street_address
  | .apartmentUnit => p.apartment_unit
  | .city => p.city
  | .state => p.state
  | .zipCode => p.zip_code
  | .county => p.county
  | .medicaidId => p.medicaid_id
  | .medicareId => p.medicare_id
  | .insuranceProvider => p.insurance_provider
  | .emergencyContact1Name => p.emergency_contact_1_name
  | .emergencyContact1Phone => p.emergency_contact_1_phone
  | .emergencyContact1Relationship => p.emergency_contact_1_relationship
  | .primaryCarePhysician => p.primary_care_physician
  | .medicalConditions => p.medical_conditions
  | .medications => p.medications
  | .allergies => p.allergies
  | .mobilityNeeds => p.mobility_needs
  | .dietaryRestrictions => p.dietary_restrictions
  | .preferredCaregiverGender => p.preferred_caregiver_gender
  | .languagePreference => p.language_preference
  | .serviceLocation => p.service_location

/-- Reset the interaction-count and timestamp fields, keeping all data fields:
two profiles agree on every data field iff their `stripMeta` images are equal. -/
def stripMeta (p : Profile) : Profile :=
  { p with sms_conversation_count := 0, updated_at := none, last_updated_via_sms := none }

/-- Every string value present in the fragment is non-empty after trimming
(merges with such fragments only add or overwrite with non-blank values). -/
def nonBlankFragment (f : Fragment) : Bool :=
  f.firstName.all (fun s => !(trimL s.toList).isEmpty) &&
  f.lastName.all (fun s => !(trimL s.toList).isEmpty) &&
  f.middleName.all (fun s => !(trimL s.toList).isEmpty) &&
  f.preferredName.all (fun s => !(trimL s.toList).isEmpty) &&
  f.dateOfBirth.all (fun s => !(trimL s.toList).isEmpty) &&
  f.gender.all (fun s => !(trimL s.toList).isEmpty) &&
  f.email.all (fun s => !(trimL s.toList).isEmpty) &&
  f.streetAddress.all (fun s => !(trimL s.toList).isEmpty) &&
  f.apartmentUnit.all (fun s => !(trimL s.toList).isEmpty) &&
  f.city.all (fun s => !(trimL s.toList).isEmpty) &&
  f.state.all (fun s => !(trimL s.toList).isEmpty) &&
  f.zipCode.all (fun s => !(trimL s.toList).isEmpty) &&
  f.county.all (fun s => !(trimL s.toList).isEmpty) &&
  f.medicaidId.all (fun s => !(trimL s.toList).isEmpty) &&
  f.medicareId.all (fun s => !(trimL s.toList).isEmpty) &&
  f.insuranceProvider.all (fun s => !(trimL s.toList).isEmpty) &&
  f.emergencyContact1Name.all (fun s => !(trimL s.toList).isEmpty) &&
  f.emergencyContact1Phone.all (fun s => !(trimL s.toList).isEmpty) &&
  f.emergencyContact1Relationship.all (fun s => !(trimL s.toList).isEmpty) &&
  f.primaryCarePhysician.all (fun s => !(trimL s.toList).isEmpty) &&
  f.medicalConditions.all (fun s => !(trimL s.toList).isEmpty) &&
  f.medications.all (fun s => !(trimL s.toList).isEmpty) &&
  f.allergies.all (fun s => !(trimL s.toList).isEmpty) &&
  f.mobilityNeeds.all (fun s => !(trimL s.toList).isEmpty) &&
  f.dietaryRestrictions.all (fun s => !(trimL s.toList).isEmpty) &&
  f.preferredCaregiverGender.all (fun s => !(trimL s.toList).isEmpty) &&
  f.languagePreference.all (fun s => !(trimL s.toList).isEmpty) &&
  f.serviceLocation.all (fun s => !(trimL s.toList).isEmpty)

/-- No phrase list of the policy contains the empty string. -/
def policyPhrasesNonEmpty (policy : Policy) : Bool :=
  policy.emergencyKeywords.all (fun k => !k.isEmpty) &&
  policy.strictBlocks.all (fun k => !k.isEmpty) &&
  policy.softBlocks.all (fun k => !k.isEmpty) &&
  policy.primaryServices.all (fun k => !k.isEmpty) &&
  policy.administrative.all (fun k => !k.isEmpty) &&
  policy.informational.all (fun k => !k.isEmpty)

/-! ## Concrete test data -/

/-- A small policy with non-empty phrase lists for all tiers. -/
def policyA : Policy :=
  { emergencyKeywords := ["911".toList, "suicide".toList, "chest pain".toList]
    strictBlocks := ["diagnosis".toList]
    softBlocks := ["weather".toList]
    primaryServices := ["personal care".toList]
    administrative := ["scheduling".toList]
    informational := ["eligibility".toList] }

/-- A degenerate policy with an empty emergency keyword. -/
def policyEmptyKw : Policy :=
  { emergencyKeywords := [[]]
    strictBlocks := []
    softBlocks := []
    primaryServices := []
    administrative := []
    informational := [] }

/-- A message holding both a strict-block phrase and an emergency keyword. -/
def msg911 : List Char := "I need a diagnosis for my eligibility, call 911 now".toList

/-- The scenario message of the spec. -/
def mariaMsg : List Char :=
  ("My name is Maria Lopez, I" ++ apoS ++ "m 34 years old, zip 89101").toList

/-- The fragment the spec scenario expects for `mariaMsg`. -/
def mariaFragment : Fragment :=
  { firstName := some "Maria", lastName := some "Lopez", age := some 34,
    zipCode := some "89101" }

/-- A profile with all nine checklist fields filled but no primary phone. -/
def profileNoPhone : Profile :=
  { first_name := some "Maria", last_name := some "Lopez",
    date_of_birth := some "01/02/1990", street_address := some "1 Main St",
    city := some "Las Vegas", state := some "NV", zip_code := some "89101",
    emergency_contact_1_name := some "Ana", emergency_contact_1_phone := some "7025550000" }

/-- A profile missing only the emergency-contact name. -/
def profileNoEcName : Profile :=
  { first_name := some "Maria", last_name := some "Lopez",
    date_of_birth := some "01/02/1990", street_address := some "1 Main St",
    city := some "Las Vegas", state := some "NV", zip_code := some "89101",
    emergency_contact_1_phone := some "7025550000", primary_phone := some "7025551111" }

/-- A fragment holding one first name. -/
def annFragment : Fragment := { firstName := some "Ann" }

/-- A fragment holding only the unmapped `phoneNumber` key. -/
def phoneOnlyFragment : Fragment := { phoneNumber := some "7025551234" }

/-! ## PHI detection and redaction (`phiPatterns`, `detectPHI`, `redactPHI`)

Each of the five `phiPatterns` regular expressions is embedded as a positional
matcher `Option Char → List Char → Option Nat`: given the preceding character
(for `\b`) and the suffix starting at the current position, it returns the
length of the match the JS engine would produce there, or `none`.  Greedy
quantifier backtracking is encoded by trying candidate lengths in the engine's
preference order. -/

/-- The local-part class `[A-Za-z0-9._%+-]` of the email pattern. -/
def localC (c : Char) : Bool :=
  isAlphaC c || isDigitC c || c = '.' || c = '_' || c = '%' || c = '+' || c = '-'

/-- The domain class `[A-Za-z0-9.-]` of the email pattern. -/
def domainC (c : Char) : Bool := isAlphaC c || isDigitC c || c = '.' || c = '-'

/-- The top-level-domain class `[A-Z|a-z]` of the email pattern (the `|` is a
literal member of the character class as written in the source). -/
def tldC (c : Char) : Bool := isAlphaC c || c = '|'

/-- Word-ness of the last character of a span (`false` for the empty span). -/
def wordLast (x : List Char) : Bool :=
  match x.getLast? with
  | some c => isWordC c
  | none => false

/-- `/\b\d{3}-\d{2}-\d{4}\b/` (SSN) at a position. -/
def matchSSN (prev : Option Char) (s : List Char) : Option Nat :=
  match s with
  | a :: b :: c :: h1 :: d :: e :: h2 :: f :: g :: h :: i :: rest =>
    if [a, b, c, d, e, f, g, h, i].all isDigitC && h1 = '-' && h2 = '-' &&
        bdry (wOpt prev) (isWordC a) && bdry (isWordC i) (wordHead rest) then
      some 11
    else none
  | _ => none

/-- Consume one whitespace character if present (`\s?`; the following `\d`
can never match a whitespace character, so the greedy choice is forced). -/
def optSpace1 (s : List Char) : Nat × List Char :=
  match s with
  | c :: cs => if isSpaceC c then (1, cs) else (0, s)
  | [] => (0, [])

/-- The card pattern body `\d{4}\s?\d{4}\s?\d{4}\s?\d{4}` without boundaries:
number of characters consumed. -/
def cardParse (s : List Char) : Option Nat :=
  (takeDigits 4 s).bind fun p1 =>
    let q1 := optSpace1 p1.2
    (takeDigits 4 q1.2).bind fun p2 =>
      let q2 := optSpace1 p2.2
      (takeDigits 4 q2.2).bind fun p3 =>
        let q3 := optSpace1 p3.2
        (takeDigits 4 q3.2).map fun _ =>
          16 + q1.1 + q2.1 + q3.1

/-- `/\b\d{4}\s?\d{4}\s?\d{4}\s?\d{4}\b/` (credit card) at a position. -/
def matchCard (prev : Option Char) (s : List Char) : Option Nat :=
  (cardParse s).bind fun n =>
    if bdry (wOpt prev) (wordHead s) && bdry (wordLast (s.take n)) (wordHead (s.drop n)) then
      some n
    else none

/-- `/\b\d{10,11}\b/` (phone) at a position: greedy, eleven digits preferred. -/
def matchPhone10 (prev : Option Char) (s : List Char) : Option Nat :=
  let tryN : Nat → Option Nat := fun n =>
    (takeDigits n s).bind fun p =>
      if bdry (wOpt prev) (wordHead s) && bdry (wordLast p.1) (wordHead p.2) then
        some n
      else none
  match tryN 11 with
  | some n => some n
  | none => tryN 10

/-- The group lengths `(\d{1,2}, \d{1,2}, \d{2,4})` of the date pattern in the
backtracking order of the engine (greedy, rightmost group gives back first). -/
def dateCombos : List (Nat × Nat × Nat) :=
  [(2, 2, 4), (2, 2, 3), (2, 2, 2), (2, 1, 4), (2, 1, 3), (2, 1, 2),
   (1, 2, 4), (1, 2, 3), (1, 2, 2), (1, 1, 4), (1, 1, 3), (1, 1, 2)]

/-- One candidate of the date body `\d{a}\/\d{b}\/\d{c}` without boundaries. -/
def dateParseCombo (a b c : Nat) (s : List Char) : Option Nat :=
  (takeDigits a s).bind fun p1 =>
    match p1.2 with
    | sep1 :: r1 =>
      if sep1 = '/' then
        (takeDigits b r1).bind fun p2 =>
          match p2.2 with
          | sep2 :: r2 =>
            if sep2 = '/' then (takeDigits c r2).map fun _ => a + b + c + 2
            else none
          | [] => none
      else none
    | [] => none

/-- `/\b\d{1,2}\/\d{1,2}\/\d{2,4}\b/` (date) at a position. -/
def matchDate (prev : Option Char) (s : List Char) : Option Nat :=
  dateCombos.findSome? fun t =>
    (dateParseCombo t.1 t.2.1 t.2.2 s).bind fun n =>
      if bdry (wOpt prev) (wordHead s) && bdry (wordLast (s.take n)) (wordHead (s.drop n)) then
        some n
      else none

/-- The `[A-Za-z0-9.-]+\.[A-Z|a-z]{2,}\b` tail of the email patterns, applied to
the text after the `@`: the engine takes the maximal domain-class run, gives
characters back until a literal dot, then takes the maximal TLD run and gives
characters back (down to two) until the trailing `\b` holds.  Returns the
number of characters consumed after the `@`. -/
def matchDomain (afterAt : List Char) : Option Nat :=
  let D := afterAt.takeWhile domainC
  let ks := ((List.range D.length).filter fun k => decide (1 ≤ k) && D.getD k ' ' = '.').reverse
  ks.findSome? fun k =>
    let T := (afterAt.drop (k + 1)).takeWhile tldC
    let ts := ((List.range (T.length + 1)).filter fun t => decide (2 ≤ t)).reverse
    ts.findSome? fun t =>
      if bdry (isWordC (T.getD (t - 1) ' ')) (wordHead (afterAt.drop (k + 1 + t))) then
        some (k + 1 + t)
      else none

/-- `/\b[A-Za-z0-9._%+-]+@[A-Za-z0-9.-]+\.[A-Z|a-z]{2,}\b/` (email) at a
position.  The local-part run is forced: `@` is not in the class, so the
greedy `+` can only stop right before the `@`. -/
def matchEmail (prev : Option Char) (s : List Char) : Option Nat :=
  let L := s.takeWhile localC
  if L.isEmpty then none
  else if !bdry (wOpt prev) (wordHead s) then none
  else
    match s.drop L.length with
    | '@' :: afterAt =>
      (matchDomain afterAt).map fun d => L.length + 1 + d
    | _ => none

/-- Consume one `-` if present (`-?`; forced, since `\d` cannot match `-`). -/
def optDash (s : List Char) : Nat × List Char :=
  match s with
  | '-' :: cs => (1, cs)
  | _ => (0, s)

/-- `/\b(\d{3})-?(\d{3})-?(\d{4})\b/` at a position — the phone rewrite rule of
`mask_partial`. -/
def matchPhoneMask (prev : Option Char) (s : List Char) : Option Nat :=
  (takeDigits 3 s).bind fun p1 =>
    let q1 := optDash p1.2
    (takeDigits 3 q1.2).bind fun p2 =>
      let q2 := optDash p2.2
      (takeDigits 4 q2.2).bind fun p3 =>
        if bdry (wOpt prev) (wordHead s) && bdry (wordLast p3.1) (wordHead p3.2) then
          some (10 + q1.1 + q2.1)
        else none

/-- `/\b([A-Za-z])[A-Za-z0-9._%+-]*@([A-Za-z0-9.-]+\.[A-Z|a-z]{2,})\b/` at a
position — the email rewrite rule of `mask_partial`. -/
def matchEmailMask (prev : Option Char) (s : List Char) : Option Nat :=
  match s with
  | c :: rest =>
    if isAlphaC c && bdry (wOpt prev) (isWordC c) then
      let L := rest.takeWhile localC
      match rest.drop L.length with
      | '@' :: afterAt =>
        (matchDomain afterAt).map fun d => 1 + L.length + 1 + d
      | _ => none
    else none
  | [] => none

/-- Left-to-right global replace, as `String.prototype.replace` with a `g`
regex: matches are located in the input string (`skip` counts characters of a
match still to be passed over; the previous character is always the input's,
never the replacement's).  All matchers used here return lengths of at least
one. -/
def replRun (m : Option Char → List Char → Option Nat)
    (rep : List Char → List Char) : Option Char → Nat → List Char → List Char
  | _, _, [] => []
  | _, skip + 1, c :: cs => replRun m rep (some c) skip cs
  | prev, 0, c :: cs =>
    match m prev (c :: cs) with
    | some n => rep ((c :: cs).take n) ++ replRun m rep (some c) (n - 1) cs
    | none => c :: replRun m rep (some c) 0 cs

/-- `text.replace(pattern, replacement)` over the whole string. -/
def replaceAllWith (m : Option Char → List Char → Option Nat)
    (rep : List Char → List Char) (s : List Char) : List Char :=
  replRun m rep none 0 s

/-- The fixed placeholder of `full_redact`. -/
def redTok : List Char := "[REDACTED]".toList

/-- `mask_partial` SSN rewrite `XXX-XX-$3`. -/
def repSSNMask (span : List Char) : List Char := "XXX-XX-".toList ++ span.drop 7

/-- `mask_partial` phone rewrite `XXX-XXX-$3` ($3 is the final four digits). -/
def repPhoneMask (span : List Char) : List Char :=
  "XXX-XXX-".toList ++ span.drop (span.length - 4)

/-- `mask_partial` email rewrite `$1***@$2` ($1 the first local character, $2
the domain). -/
def repEmailMask (span : List Char) : List Char :=
  span.take 1 ++ "***@".toList ++ ((span.dropWhile fun c => !(c = '@')).drop 1)

/-- `redactPHI(text, 'full_redact')`: replace the matches of each of the five
`phiPatterns`, in order, by `[REDACTED]`. -/
def redactFull (s : List Char) : List Char :=
  replaceAllWith matchDate (fun _ => redTok)
    (replaceAllWith matchPhone10 (fun _ => redTok)
      (replaceAllWith matchEmail (fun _ => redTok)
        (replaceAllWith matchCard (fun _ => redTok)
          (replaceAllWith matchSSN (fun _ => redTok) s))))

/-- `redactPHI(text, 'mask_partial')`: the three rewrite passes, in source
order (SSN, phone, email). -/
def maskPartial (s : List Char) : List Char :=
  replaceAllWith matchEmailMask repEmailMask
    (replaceAllWith matchPhoneMask repPhoneMask
      (replaceAllWith matchSSN repSSNMask s))

/-- `redactPHI(text, mode)`. -/
def redactPHI (s : List Char) (mode : String) : List Char :=
  if mode = "mask_partial" then maskPartial s
  else if mode = "full_redact" then redactFull s
  else s

/-- Does the pattern match anywhere in the text (`text.match(pattern)` is
non-null)? -/
def hasMatch (m : Option Char → List Char → Option Nat) :
    Option Char → List Char → Bool
  | prev, [] => (m prev []).isSome
  | prev, c :: cs => (m prev (c :: cs)).isSome || hasMatch m (some c) cs

/-- `detectPHI(text)`: the PHI types whose pattern matches somewhere in the
text, in `phiPatterns` order. -/
def detectPHI (s : List Char) : List String :=
  (if hasMatch matchSSN none s then ["ssn"] else []) ++
  (if hasMatch matchCard none s then ["credit_card"] else []) ++
  (if hasMatch matchEmail none s then ["email"] else []) ++
  (if hasMatch matchPhone10 none s then ["phone"] else []) ++
  (if hasMatch matchDate none s then ["date"] else [])

/-! ### Shapes: which character spans each pattern can match

A shape predicate holds of exactly the spans `x` for which some parse of the
pattern body consumes all of `x`; boundary conditions are stated separately. -/

/-- SSN shape: `\d{3}-\d{2}-\d{4}`. -/
def ssnShape (x : List Char) : Bool :=
  match x with
  | [a, b, c, h1, d, e, h2, f, g, h, i] =>
    [a, b, c, d, e, f, g, h, i].all isDigitC && h1 = '-' && h2 = '-'
  | _ => false

/-- Card shape: the card body consumes exactly `x`. -/
def cardShape (x : List Char) : Bool := cardParse x = some x.length

/-- Phone shape: ten or eleven digits. -/
def phoneShape (x : List Char) : Bool :=
  (x.length = 10 || x.length = 11) && x.all isDigitC

/-- Date shape: some group-length combination consumes exactly `x`. -/
def dateShape (x : List Char) : Bool :=
  dateCombos.any fun t => dateParseCombo t.1 t.2.1 t.2.2 x = some x.length

/-- Email shape: a non-empty local part, `@`, a non-empty domain, a dot and a
TLD of length at least two reaching the end of `x`. -/
def emailShape (x : List Char) : Bool :=
  let L := x.takeWhile localC
  !L.isEmpty &&
    match x.drop L.length with
    | '@' :: afterAt =>
      (List.range afterAt.length).any fun k =>
        decide (1 ≤ k) && afterAt.getD k ' ' = '.' &&
        ((afterAt.take k).all domainC) &&
        ((afterAt.drop (k + 1)).all tldC) &&
        decide (2 ≤ afterAt.length - (k + 1))
    | _ => false

/-- A pattern span occurrence at the head of `s`, with `\b` on both sides
(`wl` is the word-ness of the character immediately to the left of `s`). -/
def SpanAt (shape : List Char → Bool) (wl : Bool) (s : List Char) : Prop :=
  ∃ x r, s = x ++ r ∧ shape x = true ∧ bdry wl (wordHead x) = true ∧
    bdry (wordLast x) (wordHead r) = true

/-- Word-ness of the character just left of a position reached after reading
`l`, starting from left context `wl`. -/
def ctxW (wl : Bool) (l : List Char) : Bool :=
  match l.getLast? with
  | some c => isWordC c
  | none => wl

/-- The previous character at a position reached after reading `l`. -/
def prevAt (prev : Option Char) (l : List Char) : Option Char :=
  match l.getLast? with
  | some c => some c
  | none => prev

/-- A pattern span occurrence anywhere in `s`. -/
def HasSpan (shape : List Char → Bool) (wl : Bool) (s : List Char) : Prop :=
  ∃ l t, s = l ++ t ∧ SpanAt shape (ctxW wl l) t

/-- Which input characters a replace pass consumes as part of a match: the
same scan as `replRun`, marking each input position. -/
def replTouched (m : Option Char → List Char → Option Nat) :
    Option Char → Nat → List Char → List Bool
  | _, _, [] => []
  | _, skip + 1, c :: cs => true :: replTouched m (some c) skip cs
  | prev, 0, c :: cs =>
    match m prev (c :: cs) with
    | some n => true :: replTouched m (some c) (n - 1) cs
    | none => false :: replTouched m (some c) 0 cs

/-- No match of the scan overlaps the `n` characters starting at position `i`. -/
def untouchedSeg (m : Option Char → List Char → Option Nat)
    (s : List Char) (i n : Nat) : Bool :=
  (((replTouched m none 0 s).drop i).take n).all (fun b => !b)

/-! ## Helper lemmas -/

/-- Overwriting twice with the same fragment value is the same as overwriting
once. -/
theorem mergeField_self {α : Type} (x : Option α) (y : Option α) :
    mergeField x (mergeField x y) = mergeField x y := by
  cases x <;> rfl

/-- `includes` on the empty string holds only for the empty needle. -/
theorem includesL_nil (n : List Char) : includesL n [] = n.isEmpty := by
  cases n <;> rfl

/-- A list of non-empty phrases has no member contained in the empty message. -/
theorem any_includes_nil_eq_false (L : List (List Char))
    (h : L.all (fun k => !k.isEmpty) = true) :
    (L.any fun k => includesL (toLowerL k) (toLowerL [])) = false := by
  rw [List.any_eq_false]
  intro k hk
  have hne : k.isEmpty = false := by
    have := List.all_eq_true.mp h k hk
    simpa using this
  cases k with
  | nil => simp at hne
  | cons c t => simp [toLowerL, includesL, List.isPrefixOf]

/-! ## PHI machinery: basic lemmas -/

theorem takeDigits_sound {n : Nat} {s ds r : List Char}
    (h : takeDigits n s = some (ds, r)) :
    s = ds ++ r ∧ ds.length = n ∧ ds.all isDigitC = true := by
  induction n generalizing s ds with
  | zero =>
    simp only [takeDigits, Option.some.injEq, Prod.mk.injEq] at h
    obtain ⟨h1, h2⟩ := h
    subst h1 h2
    simp
  | succ k ih =>
    cases s with
    | nil =>
      simp only [takeDigits] at h
      exact Option.noConfusion h
    | cons c cs =>
      simp only [takeDigits] at h
      by_cases hc : isDigitC c = true
      · rw [if_pos hc] at h
        cases hd : takeDigits k cs with
        | none => rw [hd] at h; simp at h
        | some p =>
          obtain ⟨ds1, r1⟩ := p
          rw [hd] at h
          simp only [Option.map_some, Option.map_some', Option.some.injEq,
            Prod.mk.injEq] at h
          obtain ⟨hds, hr⟩ := h
          subst hr
          obtain ⟨h1, h2, h3⟩ := ih hd
          subst hds
          simp [h1, h2, h3, hc]
      · rw [if_neg hc] at h
        simp at h

theorem takeDigits_complete {n : Nat} {ds r : List Char}
    (hlen : ds.length = n) (hd : ds.all isDigitC = true) :
    takeDigits n (ds ++ r) = some (ds, r) := by
  induction ds generalizing n with
  | nil =>
    subst hlen
    simp [takeDigits]
  | cons c cs ih =>
    subst hlen
    simp only [List.all_cons, Bool.and_eq_true] at hd
    simp only [List.cons_append, List.length_cons, takeDigits, hd.1, if_true,
      List.append_eq]
    rw [ih rfl hd.2]
    rfl

theorem ctxW_cons (wl : Bool) (c : Char) (l : List Char) :
    ctxW wl (c :: l) = ctxW (isWordC c) l := by
  cases l <;> simp [ctxW, List.getLast?]

theorem prevAt_cons (prev : Option Char) (c : Char) (l : List Char) :
    prevAt prev (c :: l) = prevAt (some c) l := by
  cases l <;> simp [prevAt, List.getLast?]

theorem wOpt_prevAt (prev : Option Char) (l : List Char) :
    wOpt (prevAt prev l) = ctxW (wOpt prev) l := by
  cases hl : l.getLast? <;> simp [prevAt, ctxW, hl, wOpt]

theorem wordLast_cons (c : Char) (l : List Char) :
    wordLast (c :: l) = ctxW (isWordC c) l := by
  cases l <;> simp [wordLast, ctxW, List.getLast?]

theorem ctxW_append (wl : Bool) (l1 l2 : List Char) :
    ctxW wl (l1 ++ l2) = ctxW (ctxW wl l1) l2 := by
  cases h2 : l2.getLast? with
  | none =>
    rw [List.getLast?_eq_none_iff] at h2
    subst h2
    simp [ctxW]
  | some c =>
    have : (l1 ++ l2).getLast? = some c := by
      rw [List.getLast?_append]
      simp [h2]
    simp [ctxW, this, h2]

theorem prevAt_append (prev : Option Char) (l1 l2 : List Char) :
    prevAt prev (l1 ++ l2) = prevAt (prevAt prev l1) l2 := by
  cases h2 : l2.getLast? with
  | none =>
    rw [List.getLast?_eq_none_iff] at h2
    subst h2
    simp [prevAt]
  | some c =>
    have : (l1 ++ l2).getLast? = some c := by
      rw [List.getLast?_append]
      simp [h2]
    simp [prevAt, this, h2]

theorem wordHead_append (x r : List Char) (hx : x ≠ []) :
    wordHead (x ++ r) = wordHead x := by
  cases x with
  | nil => exact absurd rfl hx
  | cons c cs => rfl

theorem replRun_skip (m : Option Char → List Char → Option Nat)
    (rep : List Char → List Char) :
    ∀ (k : Nat) (prev : Option Char) (rest : List Char), k ≤ rest.length →
      replRun m rep prev k rest =
        replRun m rep (prevAt prev (rest.take k)) 0 (rest.drop k) := by
  intro k
  induction k with
  | zero => intro prev rest _; simp [prevAt]
  | succ j ih =>
    intro prev rest hk
    cases rest with
    | nil => simp at hk
    | cons c cs =>
      have hj : j ≤ cs.length := by simpa using hk
      show replRun m rep (some c) j cs = _
      rw [ih (some c) cs hj]
      rw [List.take_cons (by omega), List.drop_succ_cons, prevAt_cons]
      simp

theorem digit_ne_brackets {c : Char} (h : isDigitC c = true) : c ≠ '[' ∧ c ≠ ']' := by
  constructor <;> rintro rfl <;> exact absurd h (by decide)

/-! ### SSN matcher -/

theorem matchSSN_sound {prev : Option Char} {s : List Char} {n : Nat}
    (h : matchSSN prev s = some n) :
    1 ≤ n ∧ n ≤ s.length ∧ ssnShape (s.take n) = true ∧
    bdry (wOpt prev) (wordHead s) = true ∧
    bdry (wordLast (s.take n)) (wordHead (s.drop n)) = true := by
  unfold matchSSN at h
  split at h
  case h_2 => exact absurd h (by simp)
  case h_1 a b c h1 d e h2 f g hh i rest =>
    split_ifs at h with hcond
    · obtain ⟨⟨⟨hdig, hd1⟩, hd2⟩, hbl, hbr⟩ :
          (([a, b, c, d, e, f, g, hh, i].all isDigitC = true ∧ h1 = '-') ∧ h2 = '-') ∧
          bdry (wOpt prev) (isWordC a) = true ∧ bdry (isWordC i) (wordHead rest) = true := by
        simpa [Bool.and_eq_true, and_assoc] using hcond
      have hn : n = 11 := by simpa using h.symm
      subst hn hd1 hd2
      refine ⟨by norm_num, by simp, ?_, hbl, ?_⟩
      · simp [ssnShape, List.take, hdig]
      · simpa [wordLast, List.take, List.getLast?] using hbr

theorem matchSSN_complete {prev : Option Char} {s : List Char}
    (h : SpanAt ssnShape (wOpt prev) s) : (matchSSN prev s).isSome = true := by
  obtain ⟨x, r, rfl, hsh, hbL, hbR⟩ := h
  unfold ssnShape at hsh
  split at hsh
  case h_2 => exact absurd hsh (by simp)
  case h_1 a b c h1 d e h2 f g hh i =>
    obtain ⟨⟨hdig, hd1⟩, hd2⟩ :
        ([a, b, c, d, e, f, g, hh, i].all isDigitC = true ∧ h1 = '-') ∧ h2 = '-' := by
      simpa [Bool.and_eq_true, and_assoc] using hsh
    subst hd1 hd2
    have hwl : wordLast [a, b, c, '-', d, e, '-', f, g, hh, i] = isWordC i := by
      simp [wordLast, List.getLast?]
    simp only [List.cons_append, List.nil_append, matchSSN]
    rw [if_pos]
    · simp
    · simp only [Bool.and_eq_true]
      refine ⟨⟨⟨⟨hdig, by simp⟩, by simp⟩, ?_⟩, ?_⟩
      · simpa [wordHead] using hbL
      · rw [← hwl]
        simpa [wordHead_append] using hbR

/-! ### Card matcher -/

theorem space_ne_brackets {c : Char} (h : isSpaceC c = true) : c ≠ '[' ∧ c ≠ ']' := by
  constructor <;> rintro rfl <;> exact absurd h (by decide)

theorem digit_not_space {c : Char} (h : isDigitC c = true) : isSpaceC c = false := by
  simp only [isDigitC, decide_eq_true_eq] at h
  simp only [isSpaceC, Bool.or_eq_false_iff, decide_eq_false_iff_not]
  refine ⟨⟨⟨⟨⟨?_, ?_⟩, ?_⟩, ?_⟩, ?_⟩, ?_⟩ <;> rintro rfl <;> revert h <;> decide

theorem optSpace1_sound {s r : List Char} {k : Nat} (h : optSpace1 s = (k, r)) :
    (k = 0 ∧ r = s) ∨ (k = 1 ∧ ∃ c, s = c :: r ∧ isSpaceC c = true) := by
  cases s with
  | nil =>
    simp only [optSpace1, Prod.mk.injEq] at h
    exact Or.inl ⟨h.1.symm, h.2.symm⟩
  | cons c cs =>
    simp only [optSpace1] at h
    split_ifs at h with hc
    · simp only [Prod.mk.injEq] at h
      exact Or.inr ⟨h.1.symm, c, by rw [h.2], hc⟩
    · simp only [Prod.mk.injEq] at h
      exact Or.inl ⟨h.1.symm, h.2.symm⟩

/-- A maybe-space separator: empty, or a single whitespace character. -/
def spcOk (l : List Char) : Bool :=
  match l with
  | [] => true
  | [c] => isSpaceC c
  | _ => false

/-- After a separator comes a digit group in every card parse, so the greedy
`\s?` decision is forced; this evaluates `optSpace1` when the remainder starts
with a digit. -/
theorem optSpace1_of_spc_digit {l rest : List Char} (h : spcOk l = true)
    (hne : ∃ d ds, rest = d :: ds ∧ isDigitC d = true) :
    optSpace1 (l ++ rest) = (l.length, rest) := by
  obtain ⟨d, ds, rfl, hd⟩ := hne
  match l, h with
  | [], _ => simp [optSpace1, digit_not_space hd]
  | [c], h =>
    have hc : isSpaceC c = true := by simpa [spcOk] using h
    simp [optSpace1, hc]

theorem cardParse_decomp {s : List Char} {n : Nat} (h : cardParse s = some n) :
    ∃ g1 s1 g2 s2 g3 s3 g4 r,
      s = g1 ++ s1 ++ (g2 ++ s2 ++ (g3 ++ s3 ++ (g4 ++ r))) ∧
      (g1.length = 4 ∧ g1.all isDigitC = true) ∧
      (g2.length = 4 ∧ g2.all isDigitC = true) ∧
      (g3.length = 4 ∧ g3.all isDigitC = true) ∧
      (g4.length = 4 ∧ g4.all isDigitC = true) ∧
      spcOk s1 = true ∧ spcOk s2 = true ∧ spcOk s3 = true ∧
      n = 16 + s1.length + s2.length + s3.length := by
  simp only [cardParse] at h
  cases h1 : takeDigits 4 s with
  | none => rw [h1] at h; simp at h
  | some p1 =>
    obtain ⟨g1, r1⟩ := p1
    rw [h1] at h
    simp only [Option.some_bind] at h
    obtain ⟨hs1, hl1, hd1⟩ := takeDigits_sound h1
    cases hq1 : optSpace1 r1 with
    | mk k1 r1' =>
      rw [hq1] at h
      cases h2 : takeDigits 4 r1' with
      | none => rw [h2] at h; simp at h
      | some p2 =>
        obtain ⟨g2, r2⟩ := p2
        rw [h2] at h
        simp only [Option.some_bind] at h
        obtain ⟨hs2, hl2, hd2⟩ := takeDigits_sound h2
        cases hq2 : optSpace1 r2 with
        | mk k2 r2' =>
          rw [hq2] at h
          cases h3 : takeDigits 4 r2' with
          | none => rw [h3] at h; simp at h
          | some p3 =>
            obtain ⟨g3, r3⟩ := p3
            rw [h3] at h
            simp only [Option.some_bind] at h
            obtain ⟨hs3, hl3, hd3⟩ := takeDigits_sound h3
            cases hq3 : optSpace1 r3 with
            | mk k3 r3' =>
              rw [hq3] at h
              cases h4 : takeDigits 4 r3' with
              | none => rw [h4] at h; simp at h
              | some p4 =>
                obtain ⟨g4, r4⟩ := p4
                rw [h4] at h
                simp only [Option.map_some, Option.map_some', Option.some.injEq] at h
                obtain ⟨hs4, hl4, hd4⟩ := takeDigits_sound h4
                have mk1 := optSpace1_sound hq1
                have mk2 := optSpace1_sound hq2
                have mk3 := optSpace1_sound hq3
                -- turn each separator into an explicit chunk
                have build : ∀ {rr rr' : List Char} {kk : Nat},
                    (kk = 0 ∧ rr' = rr) ∨ (kk = 1 ∧ ∃ c, rr = c :: rr' ∧ isSpaceC c = true) →
                    ∃ sChunk, rr = sChunk ++ rr' ∧ spcOk sChunk = true ∧
                      sChunk.length = kk := by
                  rintro rr rr' kk (⟨rfl, rfl⟩ | ⟨rfl, c, rfl, hc⟩)
                  · exact ⟨[], by simp, rfl, rfl⟩
                  · exact ⟨[c], by simp, by simpa [spcOk] using hc, rfl⟩
                obtain ⟨c1, he1, hsp1, hk1⟩ := build mk1
                obtain ⟨c2, he2, hsp2, hk2⟩ := build mk2
                obtain ⟨c3, he3, hsp3, hk3⟩ := build mk3
                refine ⟨g1, c1, g2, c2, g3, c3, g4, r4, ?_, ⟨hl1, hd1⟩, ⟨hl2, hd2⟩,
                  ⟨hl3, hd3⟩, ⟨hl4, hd4⟩, hsp1, hsp2, hsp3, ?_⟩
                · rw [hs1, he1, hs2, he2, hs3, he3, hs4]
                  simp [List.append_assoc]
                · omega

theorem cardParse_build {g1 s1 g2 s2 g3 s3 g4 r : List Char}
    (hg1 : g1.length = 4 ∧ g1.all isDigitC = true)
    (hg2 : g2.length = 4 ∧ g2.all isDigitC = true)
    (hg3 : g3.length = 4 ∧ g3.all isDigitC = true)
    (hg4 : g4.length = 4 ∧ g4.all isDigitC = true)
    (hs1 : spcOk s1 = true) (hs2 : spcOk s2 = true) (hs3 : spcOk s3 = true) :
    cardParse (g1 ++ s1 ++ (g2 ++ s2 ++ (g3 ++ s3 ++ (g4 ++ r)))) =
      some (16 + s1.length + s2.length + s3.length) := by
  have hd2 : ∃ d ds, g2 ++ (s2 ++ (g3 ++ s3 ++ (g4 ++ r))) = d :: ds ∧ isDigitC d = true := by
    cases g2 with
    | nil => simp at hg2
    | cons d ds =>
      refine ⟨d, ds ++ (s2 ++ (g3 ++ s3 ++ (g4 ++ r))), by simp, ?_⟩
      have := hg2.2
      simp only [List.all_cons, Bool.and_eq_true] at this
      exact this.1
  have hd3 : ∃ d ds, g3 ++ (s3 ++ (g4 ++ r)) = d :: ds ∧ isDigitC d = true := by
    cases g3 with
    | nil => simp at hg3
    | cons d ds =>
      refine ⟨d, ds ++ (s3 ++ (g4 ++ r)), by simp, ?_⟩
      have := hg3.2
      simp only [List.all_cons, Bool.and_eq_true] at this
      exact this.1
  have hd4 : ∃ d ds, g4 ++ r = d :: ds ∧ isDigitC d = true := by
    cases g4 with
    | nil => simp at hg4
    | cons d ds =>
      refine ⟨d, ds ++ r, by simp, ?_⟩
      have := hg4.2
      simp only [List.all_cons, Bool.and_eq_true] at this
      exact this.1
  simp only [cardParse]
  rw [show g1 ++ s1 ++ (g2 ++ s2 ++ (g3 ++ s3 ++ (g4 ++ r))) =
      g1 ++ (s1 ++ (g2 ++ (s2 ++ (g3 ++ (s3 ++ (g4 ++ r)))))) by simp [List.append_assoc]]
  rw [takeDigits_complete hg1.1 hg1.2]
  simp only [Option.some_bind]
  rw [show s1 ++ (g2 ++ (s2 ++ (g3 ++ (s3 ++ (g4 ++ r))))) =
      s1 ++ (g2 ++ (s2 ++ (g3 ++ s3 ++ (g4 ++ r)))) by simp [List.append_assoc]]
  rw [optSpace1_of_spc_digit hs1 (by simpa [List.append_assoc] using hd2)]
  rw [show g2 ++ (s2 ++ (g3 ++ s3 ++ (g4 ++ r))) =
      g2 ++ (s2 ++ (g3 ++ (s3 ++ (g4 ++ r)))) by simp [List.append_assoc]]
  rw [takeDigits_complete hg2.1 hg2.2]
  simp only [Option.some_bind]
  rw [optSpace1_of_spc_digit hs2 (by simpa [List.append_assoc] using hd3)]
  rw [takeDigits_complete hg3.1 hg3.2]
  simp only [Option.some_bind]
  rw [optSpace1_of_spc_digit hs3 hd4]
  rw [takeDigits_complete hg4.1 hg4.2]
  simp only [Option.map_some, Option.map_some']

theorem spcOk_chars {l : List Char} (h : spcOk l = true) :
    ∀ c ∈ l, isSpaceC c = true := by
  match l, h with
  | [], _ => simp
  | [c], h =>
    intro d hd
    simp only [List.mem_cons, List.not_mem_nil, or_false] at hd
    subst hd
    simpa [spcOk] using h

theorem matchCard_sound {prev : Option Char} {s : List Char} {n : Nat}
    (h : matchCard prev s = some n) :
    1 ≤ n ∧ n ≤ s.length ∧ cardShape (s.take n) = true ∧
    bdry (wOpt prev) (wordHead s) = true ∧
    bdry (wordLast (s.take n)) (wordHead (s.drop n)) = true := by
  simp only [matchCard] at h
  cases hp : cardParse s with
  | none => rw [hp] at h; simp at h
  | some m =>
    rw [hp] at h
    simp only [Option.some_bind] at h
    split_ifs at h with hc
    simp only [Option.some.injEq] at h
    subst h
    rw [Bool.and_eq_true] at hc
    obtain ⟨g1, s1, g2, s2, g3, s3, g4, r, heq, hg1, hg2, hg3, hg4, hs1, hs2, hs3, hn⟩ :=
      cardParse_decomp hp
    have hcore : s = (g1 ++ s1 ++ (g2 ++ s2 ++ (g3 ++ s3 ++ g4))) ++ r := by
      rw [heq]; simp [List.append_assoc]
    have hclen : (g1 ++ s1 ++ (g2 ++ s2 ++ (g3 ++ s3 ++ g4))).length = m := by
      simp only [List.length_append, hg1.1, hg2.1, hg3.1, hg4.1]
      omega
    have htake : s.take m = g1 ++ s1 ++ (g2 ++ s2 ++ (g3 ++ s3 ++ g4)) := by
      rw [hcore, ← hclen, List.take_left]
    have hshape : cardShape (s.take m) = true := by
      rw [htake]
      simp only [cardShape, decide_eq_true_eq]
      have hb := cardParse_build (r := []) hg1 hg2 hg3 hg4 hs1 hs2 hs3
      rw [show g1 ++ s1 ++ (g2 ++ s2 ++ (g3 ++ s3 ++ g4)) =
          g1 ++ s1 ++ (g2 ++ s2 ++ (g3 ++ s3 ++ (g4 ++ []))) by simp]
      rw [hb]
      simp only [Option.some.injEq, List.length_append, List.append_nil, List.length_nil,
        hg1.1, hg2.1, hg3.1, hg4.1]
      omega
    refine ⟨by omega, ?_, hshape, hc.1, hc.2⟩
    rw [hcore]
    simp only [List.length_append]
    omega

theorem matchCard_complete {prev : Option Char} {s : List Char}
    (h : SpanAt cardShape (wOpt prev) s) : (matchCard prev s).isSome = true := by
  obtain ⟨x, r, rfl, hsh, hbL, hbR⟩ := h
  rw [cardShape, decide_eq_true_eq] at hsh
  obtain ⟨g1, s1, g2, s2, g3, s3, g4, rr, heq, hg1, hg2, hg3, hg4, hs1, hs2, hs3, hn⟩ :=
    cardParse_decomp hsh
  have hrr : rr = [] := by
    have hlen : x.length = 16 + s1.length + s2.length + s3.length + rr.length := by
      rw [heq]
      simp only [List.length_append, hg1.1, hg2.1, hg3.1, hg4.1]
      omega
    have : rr.length = 0 := by omega
    exact List.length_eq_zero.mp this
  subst hrr
  have hx : x ≠ [] := by
    intro hh
    rw [hh] at hn
    simp at hn
    omega
  have hparse : cardParse (x ++ r) = some x.length := by
    conv_lhs => rw [heq]
    rw [show g1 ++ s1 ++ (g2 ++ s2 ++ (g3 ++ s3 ++ (g4 ++ []))) ++ r =
        g1 ++ s1 ++ (g2 ++ s2 ++ (g3 ++ s3 ++ (g4 ++ r))) by simp [List.append_assoc]]
    rw [cardParse_build hg1 hg2 hg3 hg4 hs1 hs2 hs3, hn]
  have htake : (x ++ r).take x.length = x := List.take_left x r
  have hdrop : (x ++ r).drop x.length = r := List.drop_left x r
  simp only [matchCard, hparse, Option.some_bind]
  rw [if_pos]
  · simp
  · rw [Bool.and_eq_true, wordHead_append x r hx, htake, hdrop]
    exact ⟨hbL, hbR⟩

theorem cardShape_facts {x : List Char} (h : cardShape x = true) :
    x ≠ [] ∧ (∀ c ∈ x, c ≠ '[' ∧ c ≠ ']') ∧ ∃ c ∈ x, isDigitC c = true ∨ c = '@' := by
  rw [cardShape, decide_eq_true_eq] at h
  obtain ⟨g1, s1, g2, s2, g3, s3, g4, rr, heq, hg1, hg2, hg3, hg4, hs1, hs2, hs3, hn⟩ :=
    cardParse_decomp h
  have hrr : rr = [] := by
    have hlen : x.length = 16 + s1.length + s2.length + s3.length + rr.length := by
      rw [heq]
      simp only [List.length_append, hg1.1, hg2.1, hg3.1, hg4.1]
      omega
    have : rr.length = 0 := by omega
    exact List.length_eq_zero.mp this
  subst hrr
  have hg1c := List.all_eq_true.mp hg1.2
  have hg2c := List.all_eq_true.mp hg2.2
  have hg3c := List.all_eq_true.mp hg3.2
  have hg4c := List.all_eq_true.mp hg4.2
  have hd1 : ∃ d, d ∈ g1 ∧ isDigitC d = true := by
    cases g1 with
    | nil => simp at hg1
    | cons d ds => exact ⟨d, by simp, by simpa using hg1c d (by simp)⟩
  obtain ⟨d0, hd0m, hd0⟩ := hd1
  refine ⟨?_, ?_, ⟨d0, by rw [heq]; simp [hd0m], Or.inl hd0⟩⟩
  · intro hh
    rw [hh] at heq
    have := congrArg List.length heq
    simp [hg1.1] at this
    omega
  · intro c hc
    rw [heq] at hc
    simp only [List.mem_append] at hc
    rcases hc with ((h1 | h1) | (h1 | h1) | (h1 | h1) | h1 | h1)
    · exact digit_ne_brackets (by simpa using hg1c c h1)
    · exact space_ne_brackets (spcOk_chars hs1 c h1)
    · exact digit_ne_brackets (by simpa using hg2c c h1)
    · exact space_ne_brackets (spcOk_chars hs2 c h1)
    · exact digit_ne_brackets (by simpa using hg3c c h1)
    · exact space_ne_brackets (spcOk_chars hs3 c h1)
    · exact digit_ne_brackets (by simpa using hg4c c h1)
    · simp at h1

/-! ### Date matcher -/

theorem findSome?_isSome_of_mem {α β : Type} {l : List α} {f : α → Option β} {a : α}
    (ha : a ∈ l) (h : (f a).isSome = true) : (l.findSome? f).isSome = true := by
  induction l with
  | nil => simp at ha
  | cons hd tl ih =>
    rw [List.findSome?_cons]
    cases hf : f hd with
    | some b => simp
    | none =>
      rcases List.mem_cons.mp ha with rfl | hmem
      · rw [hf] at h; simp at h
      · exact ih hmem

theorem dateParseCombo_decomp {a b c : Nat} {s : List Char} {n : Nat}
    (h : dateParseCombo a b c s = some n) :
    ∃ d1 d2 d3 r, s = d1 ++ '/' :: (d2 ++ '/' :: (d3 ++ r)) ∧
      (d1.length = a ∧ d1.all isDigitC = true) ∧
      (d2.length = b ∧ d2.all isDigitC = true) ∧
      (d3.length = c ∧ d3.all isDigitC = true) ∧
      n = a + b + c + 2 := by
  simp only [dateParseCombo] at h
  cases h1 : takeDigits a s with
  | none => rw [h1] at h; simp at h
  | some p1 =>
    obtain ⟨d1, r1⟩ := p1
    rw [h1] at h
    simp only [Option.some_bind] at h
    obtain ⟨hs1, hl1, hd1⟩ := takeDigits_sound h1
    cases r1 with
    | nil => simp at h
    | cons sep1 r1tl =>
      simp only [] at h
      split_ifs at h with hsep1
      subst hsep1
      cases h2 : takeDigits b r1tl with
      | none => rw [h2] at h; simp at h
      | some p2 =>
        obtain ⟨d2, r2⟩ := p2
        rw [h2] at h
        simp only [Option.some_bind] at h
        obtain ⟨hs2, hl2, hd2⟩ := takeDigits_sound h2
        cases r2 with
        | nil => simp at h
        | cons sep2 r2tl =>
          simp only [] at h
          split_ifs at h with hsep2
          subst hsep2
          cases h3 : takeDigits c r2tl with
          | none => rw [h3] at h; simp at h
          | some p3 =>
            obtain ⟨d3, r3⟩ := p3
            rw [h3] at h
            simp only [Option.map_some, Option.map_some', Option.some.injEq] at h
            obtain ⟨hs3, hl3, hd3⟩ := takeDigits_sound h3
            refine ⟨d1, d2, d3, r3, ?_, ⟨hl1, hd1⟩, ⟨hl2, hd2⟩, ⟨hl3, hd3⟩, h.symm⟩
            rw [hs1, hs2, hs3]

theorem dateParseCombo_build {a b c : Nat} {d1 d2 d3 r : List Char}
    (hg1 : d1.length = a ∧ d1.all isDigitC = true)
    (hg2 : d2.length = b ∧ d2.all isDigitC = true)
    (hg3 : d3.length = c ∧ d3.all isDigitC = true) :
    dateParseCombo a b c (d1 ++ '/' :: (d2 ++ '/' :: (d3 ++ r))) = some (a + b + c + 2) := by
  simp only [dateParseCombo]
  rw [takeDigits_complete hg1.1 hg1.2]
  simp only [Option.some_bind, if_true]
  rw [takeDigits_complete hg2.1 hg2.2]
  simp only [Option.some_bind, if_true]
  rw [takeDigits_complete hg3.1 hg3.2]
  simp

theorem matchDate_sound {prev : Option Char} {s : List Char} {n : Nat}
    (h : matchDate prev s = some n) :
    1 ≤ n ∧ n ≤ s.length ∧ dateShape (s.take n) = true ∧
    bdry (wOpt prev) (wordHead s) = true ∧
    bdry (wordLast (s.take n)) (wordHead (s.drop n)) = true := by
  obtain ⟨t, hmem, hf⟩ := List.exists_of_findSome?_eq_some h
  cases hp : dateParseCombo t.1 t.2.1 t.2.2 s with
  | none => rw [hp] at hf; simp at hf
  | some m =>
    rw [hp] at hf
    simp only [Option.some_bind] at hf
    split_ifs at hf with hc
    simp only [Option.some.injEq] at hf
    subst hf
    rw [Bool.and_eq_true] at hc
    obtain ⟨d1, d2, d3, r, heq, hg1, hg2, hg3, hm⟩ := dateParseCombo_decomp hp
    have hcore : s = (d1 ++ '/' :: (d2 ++ '/' :: d3)) ++ r := by
      rw [heq]; simp
    have hclen : (d1 ++ '/' :: (d2 ++ '/' :: d3)).length = m := by
      have e1 := hg1.1
      have e2 := hg2.1
      have e3 := hg3.1
      simp only [List.length_append, List.length_cons]
      omega
    have htake : s.take m = d1 ++ '/' :: (d2 ++ '/' :: d3) := by
      rw [hcore, ← hclen, List.take_left]
    have hshape : dateShape (s.take m) = true := by
      rw [htake, dateShape, List.any_eq_true]
      refine ⟨t, hmem, ?_⟩
      have hb := dateParseCombo_build (r := []) hg1 hg2 hg3
      simp only [List.append_nil] at hb
      simp only [decide_eq_true_eq]
      rw [hb]
      simp only [Option.some.injEq, List.length_append, List.length_cons,
        hg1.1, hg2.1, hg3.1]
      omega
    refine ⟨by omega, ?_, hshape, hc.1, hc.2⟩
    rw [hcore, List.length_append, hclen]
    omega

theorem matchDate_complete {prev : Option Char} {s : List Char}
    (h : SpanAt dateShape (wOpt prev) s) : (matchDate prev s).isSome = true := by
  obtain ⟨x, r, rfl, hsh, hbL, hbR⟩ := h
  rw [dateShape, List.any_eq_true] at hsh
  obtain ⟨t, hmem, hf⟩ := hsh
  rw [decide_eq_true_eq] at hf
  obtain ⟨d1, d2, d3, rr, heq, hg1, hg2, hg3, hm⟩ := dateParseCombo_decomp hf
  have hrr : rr = [] := by
    have hlen : x.length = t.1 + t.2.1 + t.2.2 + 2 + rr.length := by
      rw [heq]
      simp only [List.length_append, List.length_cons, hg1.1, hg2.1, hg3.1]
      omega
    have : rr.length = 0 := by omega
    exact List.length_eq_zero.mp this
  subst hrr
  have hx : x ≠ [] := by
    intro hh
    rw [hh] at hm
    simp at hm
  have hparse : dateParseCombo t.1 t.2.1 t.2.2 (x ++ r) = some x.length := by
    conv_lhs => rw [heq]
    rw [show (d1 ++ '/' :: (d2 ++ '/' :: (d3 ++ []))) ++ r =
        d1 ++ '/' :: (d2 ++ '/' :: (d3 ++ r)) by simp]
    rw [dateParseCombo_build hg1 hg2 hg3, hm]
  apply findSome?_isSome_of_mem hmem
  rw [hparse]
  simp only [Option.some_bind]
  rw [if_pos]
  · simp
  · rw [Bool.and_eq_true, wordHead_append x r hx]
    have htake : (x ++ r).take x.length = x := List.take_left x r
    have hdrop : (x ++ r).drop x.length = r := List.drop_left x r
    rw [htake, hdrop]
    exact ⟨hbL, hbR⟩

theorem slash_ne_brackets : ('/' : Char) ≠ '[' ∧ ('/' : Char) ≠ ']' := by decide

theorem dateShape_facts {x : List Char} (h : dateShape x = true) :
    x ≠ [] ∧ (∀ c ∈ x, c ≠ '[' ∧ c ≠ ']') ∧ ∃ c ∈ x, isDigitC c = true ∨ c = '@' := by
  rw [dateShape, List.any_eq_true] at h
  obtain ⟨t, hmem, hf⟩ := h
  rw [decide_eq_true_eq] at hf
  obtain ⟨d1, d2, d3, rr, heq, hg1, hg2, hg3, hm⟩ := dateParseCombo_decomp hf
  have hrr : rr = [] := by
    have hlen : x.length = t.1 + t.2.1 + t.2.2 + 2 + rr.length := by
      rw [heq]
      simp only [List.length_append, List.length_cons, hg1.1, hg2.1, hg3.1]
      omega
    have : rr.length = 0 := by omega
    exact List.length_eq_zero.mp this
  subst hrr
  have ha : 1 ≤ t.1 := by
    have : ∀ u ∈ dateCombos, 1 ≤ u.1 := by decide
    exact this t hmem
  have hd1c := List.all_eq_true.mp hg1.2
  have hd2c := List.all_eq_true.mp hg2.2
  have hd3c := List.all_eq_true.mp hg3.2
  have hne : x ≠ [] := by
    intro hh
    rw [hh] at heq
    exact absurd heq.symm (by simp)
  obtain ⟨e0, he0m, he0⟩ : ∃ d, d ∈ d1 ∧ isDigitC d = true := by
    cases d1 with
    | nil =>
      rw [List.length_nil] at hg1
      omega
    | cons d ds => exact ⟨d, by simp, by simpa using hd1c d (by simp)⟩
  refine ⟨hne, ?_, ⟨e0, by rw [heq]; simp [he0m], Or.inl he0⟩⟩
  intro c hc
  rw [heq] at hc
  simp only [List.mem_append, List.mem_cons, List.append_nil] at hc
  rcases hc with h1 | rfl | h1 | rfl | h1
  · exact digit_ne_brackets (by simpa using hd1c c h1)
  · exact slash_ne_brackets
  · exact digit_ne_brackets (by simpa using hd2c c h1)
  · exact slash_ne_brackets
  · exact digit_ne_brackets (by simpa using hd3c c h1)

/-! ### Email matcher -/

theorem takeWhile_all_append {p : Char → Bool} {pre : List Char}
    (h : ∀ c ∈ pre, p c = true) (l : List Char) :
    (pre ++ l).takeWhile p = pre ++ l.takeWhile p := by
  induction pre with
  | nil => simp
  | cons c cs ih =>
    have hc : p c = true := h c (by simp)
    simp only [List.cons_append, List.takeWhile_cons, hc, if_true]
    rw [ih (fun d hd => h d (by simp [hd]))]

theorem mem_takeWhile_sat {p : Char → Bool} {l : List Char} :
    ∀ c ∈ l.takeWhile p, p c = true := by
  induction l with
  | nil => simp
  | cons d ds ih =>
    intro c hc
    rw [List.takeWhile_cons] at hc
    by_cases hd : p d = true
    · rw [if_pos hd] at hc
      rcases List.mem_cons.mp hc with rfl | hmem
      · exact hd
      · exact ih c hmem
    · rw [if_neg hd] at hc
      simp at hc

theorem takeWhile_split {p : Char → Bool} (s : List Char) :
    s = s.takeWhile p ++ s.drop (s.takeWhile p).length ∧
    (∀ c ∈ s.takeWhile p, p c = true) := by
  refine ⟨?_, mem_takeWhile_sat⟩
  obtain ⟨rest, hrest⟩ := List.takeWhile_prefix (l := s) p
  set L := s.takeWhile p with hL
  rw [← hrest, List.drop_left]

theorem wordLast_append_right {l r : List Char} (hr : r ≠ []) :
    wordLast (l ++ r) = wordLast r := by
  unfold wordLast
  rw [List.getLast?_append_of_ne_nil _ hr]

theorem matchDomain_sound {afterAt : List Char} {d : Nat}
    (h : matchDomain afterAt = some d) :
    ∃ dom tld r, afterAt = dom ++ '.' :: (tld ++ r) ∧ dom ≠ [] ∧
      (∀ c ∈ dom, domainC c = true) ∧ (∀ c ∈ tld, tldC c = true) ∧
      2 ≤ tld.length ∧ d = dom.length + 1 + tld.length ∧
      bdry (wordLast tld) (wordHead r) = true := by
  simp only [matchDomain] at h
  obtain ⟨k, hkmem, hk⟩ := List.exists_of_findSome?_eq_some h
  rw [List.mem_reverse, List.mem_filter, Bool.and_eq_true] at hkmem
  obtain ⟨hkrange, hk1, hkdot⟩ := hkmem
  rw [List.mem_range] at hkrange
  rw [decide_eq_true_eq] at hk1
  rw [decide_eq_true_eq] at hkdot
  obtain ⟨t, htmem, ht⟩ := List.exists_of_findSome?_eq_some hk
  rw [List.mem_reverse, List.mem_filter] at htmem
  obtain ⟨htrange, ht2⟩ := htmem
  rw [List.mem_range] at htrange
  rw [decide_eq_true_eq] at ht2
  split_ifs at ht with hb
  simp only [Option.some.injEq] at ht
  subst ht
  set D := afterAt.takeWhile domainC with hD
  set T := (afterAt.drop (k + 1)).takeWhile tldC with hT
  have htT : t ≤ T.length := by omega
  have hkD : k < D.length := hkrange
  have hDlen : D.length ≤ afterAt.length := by
    rw [hD]
    exact (List.takeWhile_sublist _).length_le
  have hTlen : T.length ≤ afterAt.length - (k + 1) := by
    rw [hT]
    calc ((afterAt.drop (k + 1)).takeWhile tldC).length
        ≤ (afterAt.drop (k + 1)).length :=
          (List.takeWhile_sublist _).length_le
      _ = afterAt.length - (k + 1) := by simp
  -- decomposition of afterAt at positions k and k+1+t
  have hdot : afterAt.getD k ' ' = '.' := by
    have hpre : D <+: afterAt := hD ▸ List.takeWhile_prefix _
    obtain ⟨rest, hrest⟩ := hpre
    rw [← hkdot]
    conv_lhs => rw [← hrest]
    rw [List.getD_eq_getElem?_getD, List.getD_eq_getElem?_getD,
      List.getElem?_append_left hkD]
  refine ⟨afterAt.take k, (afterAt.drop (k + 1)).take t, afterAt.drop (k + 1 + t),
    ?_, ?_, ?_, ?_, ?_, ?_, ?_⟩
  · have h1 : afterAt = afterAt.take k ++ afterAt.drop k := (List.take_append_drop k afterAt).symm
    have hklen : k < afterAt.length := by omega
    have h2 : afterAt.drop k = afterAt[k] :: afterAt.drop (k + 1) :=
      List.drop_eq_getElem_cons hklen
    have h3 : afterAt[k] = '.' := by
      have := hdot
      rw [List.getD_eq_getElem?_getD, List.getElem?_eq_getElem hklen] at this
      simpa using this
    have h4 : afterAt.drop (k + 1) =
        (afterAt.drop (k + 1)).take t ++ afterAt.drop (k + 1 + t) := by
      have h5 := List.take_append_drop t (afterAt.drop (k + 1))
      rw [List.drop_drop] at h5
      exact h5.symm
    conv_lhs => rw [h1, h2, h3]
    rw [← h4]
  · intro hnil
    have hlen0 : (afterAt.take k).length = 0 := by rw [hnil]; rfl
    rw [List.length_take] at hlen0
    omega
  · intro c hc
    have hsub : afterAt.take k = D.take k := by
      obtain ⟨rest, hrest⟩ := hD ▸ List.takeWhile_prefix (l := afterAt) domainC
      conv_lhs => rw [← hrest]
      rw [List.take_append_of_le_length (by omega)]
    rw [hsub] at hc
    have hc2 : c ∈ D := List.take_subset _ _ hc
    rw [hD] at hc2
    exact mem_takeWhile_sat c hc2
  · intro c hc
    have hsub : (afterAt.drop (k + 1)).take t = T.take t := by
      obtain ⟨rest, hrest⟩ := hT ▸ List.takeWhile_prefix (l := afterAt.drop (k + 1)) tldC
      conv_lhs => rw [← hrest]
      rw [List.take_append_of_le_length (by omega)]
    rw [hsub] at hc
    have hc2 : c ∈ T := List.take_subset _ _ hc
    rw [hT] at hc2
    exact mem_takeWhile_sat c hc2
  · rw [List.length_take]
    have hdroplen : (afterAt.drop (k + 1)).length = afterAt.length - (k + 1) := by simp
    omega
  · rw [List.length_take, List.length_take]
    have hdroplen : (afterAt.drop (k + 1)).length = afterAt.length - (k + 1) := by simp
    omega
  · have hlastT : wordLast ((afterAt.drop (k + 1)).take t) = isWordC (T.getD (t - 1) ' ') := by
      have hsub : (afterAt.drop (k + 1)).take t = T.take t := by
        obtain ⟨rest, hrest⟩ := hT ▸ List.takeWhile_prefix (l := afterAt.drop (k + 1)) tldC
        conv_lhs => rw [← hrest]
        rw [List.take_append_of_le_length (by omega)]
      rw [hsub]
      unfold wordLast
      have hlen : (T.take t).length = t := by
        rw [List.length_take]
        omega
      have h1 : (T.take t).getLast? = (T.take t)[t - 1]? := by
        rw [List.getLast?_eq_getElem?, hlen]
      rw [h1, List.getElem?_take_of_lt (by omega),
        List.getD_eq_getElem?_getD, List.getElem?_eq_getElem (by omega)]
      simp [List.getElem?_eq_getElem (show t - 1 < T.length by omega)]
    rw [hlastT]
    exact hb


theorem localC_at : localC '@' = false := by decide

theorem getD_append_length (l : List Char) (c : Char) (t : List Char) (d : Char) :
    (l ++ c :: t).getD l.length d = c := by
  rw [List.getD_eq_getElem?_getD, List.getElem?_append_right (le_refl _)]
  simp

theorem matchEmail_sound {prev : Option Char} {s : List Char} {n : Nat}
    (h : matchEmail prev s = some n) :
    1 ≤ n ∧ n ≤ s.length ∧ emailShape (s.take n) = true ∧
    bdry (wOpt prev) (wordHead s) = true ∧
    bdry (wordLast (s.take n)) (wordHead (s.drop n)) = true := by
  obtain ⟨hs, hallL⟩ := takeWhile_split (p := localC) s
  simp only [matchEmail] at h
  split_ifs at h with hLe hbd
  split at h
  on_goal 2 => exact absurd h (by simp)
  next afterAt heq =>
  obtain ⟨d, hmd, hn⟩ := Option.map_eq_some'.mp h
  obtain ⟨dom, tld, r, hdec, hdom0, hdomC, htldC, htld2, hdlen, hbR⟩ :=
    matchDomain_sound hmd
  have htld_ne : tld ≠ [] := by
    intro hnil
    rw [hnil] at htld2
    simp at htld2
  have hx : s = (s.takeWhile localC ++ '@' :: (dom ++ '.' :: tld)) ++ r := by
    conv_lhs => rw [hs]
    rw [heq, hdec]
    simp [List.append_assoc]
  have hlen_x : (s.takeWhile localC ++ '@' :: (dom ++ '.' :: tld)).length = n := by
    rw [← hn, hdlen]
    simp [List.length_append, List.length_cons]
    omega
  have htake : s.take n = s.takeWhile localC ++ '@' :: (dom ++ '.' :: tld) := by
    conv_lhs => rw [hx]
    rw [List.take_left' hlen_x]
  have hdrop : s.drop n = r := by
    conv_lhs => rw [hx]
    rw [List.drop_left' hlen_x]
  refine ⟨?_, ?_, ?_, ?_, ?_⟩
  · omega
  · have hsl : s.length = n + r.length := by
      conv_lhs => rw [hx]
      rw [List.length_append, hlen_x]
    omega
  · rw [htake]
    have h1 : ((s.takeWhile localC ++ '@' :: (dom ++ '.' :: tld)).takeWhile localC) =
        s.takeWhile localC := by
      rw [takeWhile_all_append hallL]
      simp [List.takeWhile_cons, localC_at]
    have h2 : (s.takeWhile localC ++ '@' :: (dom ++ '.' :: tld)).drop
        (s.takeWhile localC).length = '@' :: (dom ++ '.' :: tld) :=
      List.drop_left _ _
    simp only [emailShape, h1, h2]
    rw [Bool.and_eq_true]
    constructor
    · rw [Bool.not_eq_true] at hLe
      rw [hLe]
      rfl
    · show ((List.range (dom ++ '.' :: tld).length).any fun k =>
        decide (1 ≤ k) && (dom ++ '.' :: tld).getD k ' ' = '.' &&
        (((dom ++ '.' :: tld).take k).all domainC) &&
        (((dom ++ '.' :: tld).drop (k + 1)).all tldC) &&
        decide (2 ≤ (dom ++ '.' :: tld).length - (k + 1))) = true
      refine List.any_eq_true.mpr ⟨dom.length, List.mem_range.mpr ?_, ?_⟩
      · simp [List.length_append, List.length_cons]
      · simp only [Bool.and_eq_true]
        refine ⟨⟨⟨⟨?_, ?_⟩, ?_⟩, ?_⟩, ?_⟩
        · simp
          exact List.length_pos.mpr hdom0
        · rw [getD_append_length]
          simp
        · rw [List.take_left]
          exact List.all_eq_true.mpr hdomC
        · have hre : dom ++ '.' :: tld = (dom ++ ['.']) ++ tld := by simp
          rw [hre, List.drop_left' (by simp)]
          exact List.all_eq_true.mpr htldC
        · simp only [List.length_append, List.length_cons]
          simp
          omega
  · rw [Bool.not_eq_true] at hbd
    simpa using hbd
  · rw [htake, hdrop]
    have hre : s.takeWhile localC ++ '@' :: (dom ++ '.' :: tld) =
        (s.takeWhile localC ++ '@' :: dom ++ ['.']) ++ tld := by simp
    rw [hre, wordLast_append_right htld_ne]
    exact hbR

theorem wordLast_eq_getD {l : List Char} (h : l ≠ []) :
    wordLast l = isWordC (l.getD (l.length - 1) ' ') := by
  unfold wordLast
  rw [List.getLast?_eq_getElem?, List.getElem?_eq_getElem
    (by cases l with | nil => exact absurd rfl h | cons c cs => simp)]
  rw [List.getD_eq_getElem?_getD, List.getElem?_eq_getElem
    (by cases l with | nil => exact absurd rfl h | cons c cs => simp)]
  rfl

theorem matchDomain_complete {dom tld r : List Char}
    (hdom0 : dom ≠ []) (hdomC : ∀ c ∈ dom, domainC c = true)
    (htldC : ∀ c ∈ tld, tldC c = true) (htld2 : 2 ≤ tld.length)
    (hbR : bdry (wordLast tld) (wordHead r) = true) :
    (matchDomain (dom ++ '.' :: (tld ++ r))).isSome = true := by
  simp only [matchDomain]
  set afterAt := dom ++ '.' :: (tld ++ r) with hA
  have hDform : afterAt.takeWhile domainC =
      dom ++ '.' :: (tld ++ r).takeWhile domainC := by
    rw [hA, takeWhile_all_append hdomC, List.takeWhile_cons]
    simp [show domainC '.' = true from by decide]
  have hdropk : afterAt.drop (dom.length + 1) = tld ++ r := by
    rw [hA]
    have : dom ++ '.' :: (tld ++ r) = (dom ++ ['.']) ++ (tld ++ r) := by simp
    rw [this, List.drop_left' (by simp)]
  have hTform : (afterAt.drop (dom.length + 1)).takeWhile tldC =
      tld ++ r.takeWhile tldC := by
    rw [hdropk, takeWhile_all_append htldC]
  apply findSome?_isSome_of_mem (a := dom.length)
  · rw [List.mem_reverse, List.mem_filter]
    constructor
    · rw [List.mem_range, hDform]
      simp
    · rw [Bool.and_eq_true]
      constructor
      · simp
        cases dom with | nil => exact absurd rfl hdom0 | cons c cs => simp
      · rw [hDform, getD_append_length]
        simp
  · apply findSome?_isSome_of_mem (a := tld.length)
    · rw [List.mem_reverse, List.mem_filter]
      constructor
      · rw [List.mem_range, hTform]
        simp [List.length_append]
        omega
      · simp
        omega
    · have hT1 : ((afterAt.drop (dom.length + 1)).takeWhile tldC).getD
          (tld.length - 1) ' ' = tld.getD (tld.length - 1) ' ' := by
        rw [hTform, List.getD_eq_getElem?_getD, List.getD_eq_getElem?_getD,
          List.getElem?_append_left (by omega)]
      have hT2 : afterAt.drop (dom.length + 1 + tld.length) = r := by
        rw [hA]
        have : dom ++ '.' :: (tld ++ r) = ((dom ++ ['.']) ++ tld) ++ r := by simp
        rw [this, List.drop_left' (by simp [List.length_append]; omega)]
      have htld_ne : tld ≠ [] := by
        intro hnil
        rw [hnil] at htld2
        simp at htld2
      rw [hT1, hT2, ← wordLast_eq_getD htld_ne, if_pos hbR]
      rfl

theorem matchEmail_complete {prev : Option Char} {s : List Char}
    (h : SpanAt emailShape (wOpt prev) s) : (matchEmail prev s).isSome = true := by
  obtain ⟨x, r, rfl, hsh, hbL, hbR⟩ := h
  simp only [emailShape, Bool.and_eq_true] at hsh
  obtain ⟨hLx, hrest⟩ := hsh
  split at hrest
  on_goal 2 => exact absurd hrest (by simp)
  next afterAt heq =>
  rw [List.any_eq_true] at hrest
  obtain ⟨k, hkmem, hkcond⟩ := hrest
  rw [List.mem_range] at hkmem
  simp only [Bool.and_eq_true, decide_eq_true_eq] at hkcond
  obtain ⟨⟨⟨⟨hk1, hkdot⟩, hkdom⟩, hktld⟩, hklen⟩ := hkcond
  obtain ⟨hxsplit, hallLx⟩ := takeWhile_split (p := localC) x
  set Lx := x.takeWhile localC with hLdef
  have hx : x = Lx ++ '@' :: afterAt := by
    conv_lhs => rw [hxsplit]
    rw [heq]
  have hdom0 : afterAt.take k ≠ [] := by
    intro hnil
    have hlen0 : (afterAt.take k).length = 0 := by rw [hnil]; rfl
    rw [List.length_take] at hlen0
    omega
  have hdec : afterAt = afterAt.take k ++ '.' :: afterAt.drop (k + 1) := by
    have h1 : afterAt = afterAt.take k ++ afterAt.drop k := (List.take_append_drop k afterAt).symm
    have h2 : afterAt.drop k = afterAt[k] :: afterAt.drop (k + 1) :=
      List.drop_eq_getElem_cons hkmem
    have h3 : afterAt[k] = '.' := by
      rw [List.getD_eq_getElem?_getD, List.getElem?_eq_getElem hkmem] at hkdot
      simpa using hkdot
    conv_lhs => rw [h1, h2, h3]
  have hLeq : ((Lx ++ '@' :: afterAt) ++ r).takeWhile localC = Lx := by
    have hassoc : (Lx ++ '@' :: afterAt) ++ r = Lx ++ '@' :: (afterAt ++ r) := by
      simp [List.append_assoc]
    rw [hassoc, takeWhile_all_append hallLx]
    simp [List.takeWhile_cons, localC_at]
  have hdropL : ((Lx ++ '@' :: afterAt) ++ r).drop Lx.length = '@' :: (afterAt ++ r) := by
    have hassoc : (Lx ++ '@' :: afterAt) ++ r = Lx ++ '@' :: (afterAt ++ r) := by
      simp [List.append_assoc]
    rw [hassoc, List.drop_left]
  rw [hx]
  simp only [matchEmail]
  rw [hLeq, hdropL]
  rw [if_neg, if_neg]
  · have hAr : afterAt ++ r = afterAt.take k ++ '.' :: (afterAt.drop (k + 1) ++ r) := by
      conv_lhs => rw [hdec]
      simp [List.append_assoc]
    have htld_ne : afterAt.drop (k + 1) ≠ [] := by
      intro hnil
      have hlen0 : (afterAt.drop (k + 1)).length = 0 := by rw [hnil]; rfl
      simp at hlen0
      omega
    have hmd : (matchDomain (afterAt.take k ++ '.' :: (afterAt.drop (k + 1) ++ r))).isSome
        = true := by
      apply matchDomain_complete hdom0
      · intro c hc
        exact (List.all_eq_true.mp hkdom) c hc
      · intro c hc
        exact (List.all_eq_true.mp hktld) c hc
      · have hh2 : (afterAt.drop (k + 1)).length = afterAt.length - (k + 1) := by simp
        omega
      · have hwl : wordLast x = wordLast (afterAt.drop (k + 1)) := by
          rw [hx]
          have hre : Lx ++ '@' :: afterAt =
              ((Lx ++ '@' :: afterAt.take k) ++ ['.']) ++ afterAt.drop (k + 1) := by
            conv_lhs => rw [hdec]
            simp [List.append_assoc]
          rw [hre, wordLast_append_right htld_ne]
        rw [← hwl]
        exact hbR
    obtain ⟨d, hd⟩ := Option.isSome_iff_exists.mp hmd
    rw [hAr]
    show ((matchDomain (afterAt.take k ++ '.' :: (afterAt.drop (k + 1) ++ r))).map
      fun d => Lx.length + 1 + d).isSome = true
    rw [hd]
    rfl
  · have hLne : Lx ≠ [] := by
      intro hnil
      have hE : Lx.isEmpty = true := by simp [hnil]
      rw [hE] at hLx
      simp at hLx
    have h1 : wordHead (Lx ++ '@' :: (afterAt ++ r)) = wordHead Lx :=
      wordHead_append _ _ hLne
    have h2 : wordHead (Lx ++ '@' :: afterAt) = wordHead Lx :=
      wordHead_append _ _ hLne
    rw [hx, h2] at hbL
    simp [h1, hbL]
  · intro hnil
    have hE : Lx.isEmpty = true := by simp [hnil]
    rw [hE] at hLx
    simp at hLx

theorem localC_ne_brackets {c : Char} (h : localC c = true) : c ≠ '[' ∧ c ≠ ']' := by
  constructor <;> rintro rfl <;> exact absurd h (by decide)

theorem domainC_ne_brackets {c : Char} (h : domainC c = true) : c ≠ '[' ∧ c ≠ ']' := by
  constructor <;> rintro rfl <;> exact absurd h (by decide)

theorem tldC_ne_brackets {c : Char} (h : tldC c = true) : c ≠ '[' ∧ c ≠ ']' := by
  constructor <;> rintro rfl <;> exact absurd h (by decide)

theorem emailShape_facts {x : List Char} (h : emailShape x = true) :
    x ≠ [] ∧ (∀ c ∈ x, c ≠ '[' ∧ c ≠ ']') ∧ ∃ c ∈ x, isDigitC c = true ∨ c = '@' := by
  simp only [emailShape, Bool.and_eq_true] at h
  obtain ⟨hL, hrest⟩ := h
  split at hrest
  on_goal 2 => exact absurd hrest (by simp)
  next afterAt heq =>
  rw [List.any_eq_true] at hrest
  obtain ⟨k, hkmem, hkcond⟩ := hrest
  rw [List.mem_range] at hkmem
  simp only [Bool.and_eq_true, decide_eq_true_eq] at hkcond
  obtain ⟨⟨⟨⟨hk1, hkdot⟩, hkdom⟩, hktld⟩, hklen⟩ := hkcond
  obtain ⟨hxsplit, hallLx⟩ := takeWhile_split (p := localC) x
  have hxeq : x = x.takeWhile localC ++ '@' :: afterAt := by
    conv_lhs => rw [hxsplit]
    rw [heq]
  have hdec : afterAt = afterAt.take k ++ '.' :: afterAt.drop (k + 1) := by
    have h1 : afterAt = afterAt.take k ++ afterAt.drop k := (List.take_append_drop k afterAt).symm
    have h2 : afterAt.drop k = afterAt[k] :: afterAt.drop (k + 1) :=
      List.drop_eq_getElem_cons hkmem
    have h3 : afterAt[k] = '.' := by
      rw [List.getD_eq_getElem?_getD, List.getElem?_eq_getElem hkmem] at hkdot
      simpa using hkdot
    conv_lhs => rw [h1, h2, h3]
  refine ⟨?_, ?_, ⟨'@', ?_, Or.inr rfl⟩⟩
  · intro hnil
    rw [hnil] at hxeq
    exact absurd hxeq.symm (by simp)
  · intro c hc
    rw [hxeq, hdec] at hc
    simp only [List.mem_append, List.mem_cons] at hc
    rcases hc with hcL | hc2
    · exact localC_ne_brackets (hallLx c hcL)
    rcases hc2 with rfl | hc3
    · exact ⟨by decide, by decide⟩
    rcases hc3 with hcd | hc4
    · exact domainC_ne_brackets ((List.all_eq_true.mp hkdom) c hcd)
    rcases hc4 with rfl | hct
    · exact ⟨by decide, by decide⟩
    · exact tldC_ne_brackets ((List.all_eq_true.mp hktld) c hct)
  · rw [hxeq]
    simp

theorem phone_try_sound {prev : Option Char} {s : List Char} {k n : Nat}
    (hk : k = 10 ∨ k = 11)
    (h : ((takeDigits k s).bind fun p =>
      if bdry (wOpt prev) (wordHead s) && bdry (wordLast p.1) (wordHead p.2) then
        some k
      else none) = some n) :
    1 ≤ n ∧ n ≤ s.length ∧ phoneShape (s.take n) = true ∧
    bdry (wOpt prev) (wordHead s) = true ∧
    bdry (wordLast (s.take n)) (wordHead (s.drop n)) = true := by
  cases hd : takeDigits k s with
  | none => rw [hd] at h; simp at h
  | some p =>
    obtain ⟨ds, r⟩ := p
    rw [hd] at h
    simp only [Option.some_bind] at h
    split_ifs at h with hc
    simp only [Option.some.injEq] at h
    subst h
    obtain ⟨heq, hlen, hdig⟩ := takeDigits_sound hd
    subst heq
    rw [Bool.and_eq_true] at hc
    obtain ⟨hc1, hc2⟩ := hc
    have htake : (ds ++ r).take k = ds := by rw [← hlen]; exact List.take_left ds r
    have hdrop : (ds ++ r).drop k = r := by rw [← hlen]; exact List.drop_left ds r
    refine ⟨by omega, ?_, ?_, hc1, ?_⟩
    · simp [← hlen]
    · rw [htake]
      simp only [phoneShape, hdig, Bool.and_true]
      rcases hk with rfl | rfl <;> simp [hlen]
    · rw [htake, hdrop]; exact hc2

theorem matchPhone10_sound {prev : Option Char} {s : List Char} {n : Nat}
    (h : matchPhone10 prev s = some n) :
    1 ≤ n ∧ n ≤ s.length ∧ phoneShape (s.take n) = true ∧
    bdry (wOpt prev) (wordHead s) = true ∧
    bdry (wordLast (s.take n)) (wordHead (s.drop n)) = true := by
  simp only [matchPhone10] at h
  split at h
  case h_1 m heq =>
    simp only [Option.some.injEq] at h
    subst h
    exact phone_try_sound (Or.inr rfl) heq
  case h_2 heq =>
    exact phone_try_sound (Or.inl rfl) h

theorem matchPhone10_complete {prev : Option Char} {s : List Char}
    (h : SpanAt phoneShape (wOpt prev) s) : (matchPhone10 prev s).isSome = true := by
  obtain ⟨x, r, rfl, hsh, hbL, hbR⟩ := h
  simp only [phoneShape, Bool.and_eq_true, Bool.or_eq_true, decide_eq_true_eq] at hsh
  obtain ⟨hlen, hdig⟩ := hsh
  have hx : x ≠ [] := by
    intro hx
    subst hx
    simp at hlen
  have hcond : (bdry (wOpt prev) (wordHead (x ++ r)) &&
      bdry (wordLast x) (wordHead r)) = true := by
    rw [wordHead_append x r hx, hbL, hbR]
    rfl
  simp only [matchPhone10]
  rcases hlen with h10 | h11
  · split
    case h_1 => simp
    case h_2 heq =>
      rw [takeDigits_complete h10 hdig]
      simp only [Option.some_bind, hcond, if_true]
      simp
  · have : takeDigits 11 (x ++ r) = some (x, r) := takeDigits_complete h11 hdig
    split
    case h_1 => simp
    case h_2 heq =>
      rw [this] at heq
      simp only [Option.some_bind, hcond, if_true] at heq
      exact absurd heq (by simp)

theorem phoneShape_facts {x : List Char} (h : phoneShape x = true) :
    x ≠ [] ∧ (∀ c ∈ x, c ≠ '[' ∧ c ≠ ']') ∧ ∃ c ∈ x, isDigitC c = true ∨ c = '@' := by
  simp only [phoneShape, Bool.and_eq_true, Bool.or_eq_true, decide_eq_true_eq] at h
  obtain ⟨hlen, hdig⟩ := h
  have hx : x ≠ [] := by
    intro hx
    subst hx
    simp at hlen
  have hall := List.all_eq_true.mp hdig
  refine ⟨hx, fun c hc => digit_ne_brackets (by simpa using hall c hc), ?_⟩
  cases x with
  | nil => exact absurd rfl hx
  | cons c cs => exact ⟨c, by simp, Or.inl (by simpa using hall c (by simp))⟩

theorem ssnShape_facts {x : List Char} (h : ssnShape x = true) :
    x ≠ [] ∧ (∀ c ∈ x, c ≠ '[' ∧ c ≠ ']') ∧ ∃ c ∈ x, isDigitC c = true ∨ c = '@' := by
  unfold ssnShape at h
  split at h
  case h_2 => exact absurd h (by simp)
  case h_1 a b c h1 d e h2 f g hh i =>
    obtain ⟨⟨hdig, hd1⟩, hd2⟩ :
        ([a, b, c, d, e, f, g, hh, i].all isDigitC = true ∧ h1 = '-') ∧ h2 = '-' := by
      simpa [Bool.and_eq_true, and_assoc] using h
    subst hd1 hd2
    simp only [List.all_cons, Bool.and_eq_true] at hdig
    obtain ⟨ha, hb, hc, hd', he, hf, hg, hhh, hi, -⟩ := hdig
    refine ⟨by simp, ?_, ⟨a, by simp, Or.inl ha⟩⟩
    intro ch hch
    simp only [List.mem_cons, List.not_mem_nil, or_false] at hch
    rcases hch with rfl | rfl | rfl | rfl | rfl | rfl | rfl | rfl | rfl | rfl | rfl
    · exact digit_ne_brackets ha
    · exact digit_ne_brackets hb
    · exact digit_ne_brackets hc
    · exact ⟨by decide, by decide⟩
    · exact digit_ne_brackets hd'
    · exact digit_ne_brackets he
    · exact ⟨by decide, by decide⟩
    · exact digit_ne_brackets hf
    · exact digit_ne_brackets hg
    · exact digit_ne_brackets hhh
    · exact digit_ne_brackets hi

/-! ### Replace-scan correspondence -/

theorem replRun_nil (m : Option Char → List Char → Option Nat)
    (rep : List Char → List Char) (prev : Option Char) (k : Nat) :
    replRun m rep prev k [] = [] := by
  cases k <;> rfl

theorem replRun_zero_cons (m : Option Char → List Char → Option Nat)
    (rep : List Char → List Char) (prev : Option Char) (c : Char) (cs : List Char) :
    replRun m rep prev 0 (c :: cs) =
      match m prev (c :: cs) with
      | some n => rep ((c :: cs).take n) ++ replRun m rep (some c) (n - 1) cs
      | none => c :: replRun m rep (some c) 0 cs := rfl

theorem redTok_head : redTok = '[' :: "REDACTED]".toList := by decide

theorem redTok_no_digit_at : ∀ c ∈ redTok, isDigitC c = false ∧ c ≠ '@' := by decide

theorem ctxW_redTok (w : Bool) : ctxW w redTok = false := by
  cases w <;> decide

theorem redTok_suffix_brack {lo a : List Char} (h : redTok = lo ++ a) (ha : a ≠ []) :
    ']' ∈ a := by
  have h2 : (lo ++ a).getLast? = a.getLast? := List.getLast?_append_of_ne_nil _ ha
  rw [← h] at h2
  have h3 : redTok.getLast? = some ']' := by decide
  rw [h3] at h2
  exact List.mem_of_mem_getLast? h2.symm

theorem ctxW_of_ne_nil {l : List Char} (h : l ≠ []) (w1 w2 : Bool) :
    ctxW w1 l = ctxW w2 l := by
  cases hl : l.getLast? with
  | none =>
    rw [List.getLast?_eq_none_iff] at hl
    exact absurd hl h
  | some c => simp [ctxW, hl]

theorem ctxW_cons_eq_wordLast (w : Bool) (c : Char) (l : List Char) :
    ctxW w (c :: l) = wordLast (c :: l) := by
  rw [ctxW_cons, ← wordLast_cons]

/-- A bracket-free prefix of a full-redact scan output is a prefix of the
input, and the rest of the output is the scan of the rest of the input. -/
theorem replRun_prefix_trace (m : Option Char → List Char → Option Nat) :
    ∀ (x rest : List Char) (prev : Option Char) (rout : List Char),
    replRun m (fun _ => redTok) prev 0 rest = x ++ rout →
    (∀ ch ∈ x, ch ≠ '[') →
    ∃ rr, rest = x ++ rr ∧
      rout = replRun m (fun _ => redTok) (prevAt prev x) 0 rr := by
  intro x
  induction x with
  | nil =>
    intro rest prev rout h hx
    refine ⟨rest, by simp, ?_⟩
    simpa [prevAt] using h.symm
  | cons a x2 ih =>
    intro rest prev rout h hx
    cases rest with
    | nil =>
      rw [replRun_nil] at h
      exact absurd h.symm (by simp)
    | cons c cs =>
      rw [replRun_zero_cons] at h
      cases hm0 : m prev (c :: cs) with
      | some n =>
        rw [hm0] at h
        rw [redTok_head] at h
        have ha : a = '[' := by
          have := congrArg (fun l => l.head?) h
          simpa using this.symm
        exact absurd ha (hx a (by simp))
      | none =>
        rw [hm0] at h
        have hac : c = a ∧ replRun m (fun _ => redTok) (some c) 0 cs = x2 ++ rout := by
          constructor
          · have := congrArg (fun l => l.head?) h
            simpa using this
          · have := congrArg (fun l => l.tail) h
            simpa using this
        obtain ⟨rfl, htail⟩ := hac
        obtain ⟨rr, hcs, hro⟩ := ih cs (some c) rout htail
          (fun ch hch => hx ch (by simp [hch]))
        refine ⟨rr, by simp [hcs], ?_⟩
        rw [prevAt_cons]
        exact hro

/-- Core correspondence for a full-redact pass: a pattern span in the output
of the scan maps back to a span of the same shape in the input, at a position
the scan tested and rejected. -/
theorem corr_span (σ : List Char → Bool) (m : Option Char → List Char → Option Nat)
    (hfacts : ∀ x, σ x = true → x ≠ [] ∧ (∀ c ∈ x, c ≠ '[' ∧ c ≠ ']') ∧
      ∃ c ∈ x, isDigitC c = true ∨ c = '@')
    (hms : ∀ prev t n, m prev t = some n → 1 ≤ n ∧ n ≤ t.length ∧
      bdry (wOpt prev) (wordHead t) = true ∧
      bdry (wordLast (t.take n)) (wordHead (t.drop n)) = true) :
    ∀ (fuel : Nat) (rest : List Char), rest.length ≤ fuel → ∀ (prev : Option Char),
    HasSpan σ (wOpt prev) (replRun m (fun _ => redTok) prev 0 rest) →
    ∃ l x r, rest = l ++ x ++ r ∧ σ x = true ∧
      bdry (wOpt (prevAt prev l)) (wordHead x) = true ∧
      bdry (wordLast x) (wordHead r) = true ∧
      m (prevAt prev l) (x ++ r) = none := by
  intro fuel
  induction fuel with
  | zero =>
    intro rest hlen prev H
    have hnil : rest = [] := List.length_eq_zero.mp (Nat.le_zero.mp hlen)
    subst hnil
    rw [replRun_nil] at H
    obtain ⟨lo, t0, heq, x, ro, hxr, hsg, hbl, hbr⟩ := H
    obtain ⟨hlo, ht0⟩ := List.append_eq_nil.mp heq.symm
    rw [ht0] at hxr
    obtain ⟨hx, -⟩ := List.append_eq_nil.mp hxr.symm
    exact absurd hx (hfacts x hsg).1
  | succ f ih =>
    intro rest hlen prev H
    cases rest with
    | nil =>
      rw [replRun_nil] at H
      obtain ⟨lo, t0, heq, x, ro, hxr, hsg, hbl, hbr⟩ := H
      obtain ⟨hlo, ht0⟩ := List.append_eq_nil.mp heq.symm
      rw [ht0] at hxr
      obtain ⟨hx, -⟩ := List.append_eq_nil.mp hxr.symm
      exact absurd hx (hfacts x hsg).1
    | cons c cs =>
      have hcslen : cs.length ≤ f := by simpa using hlen
      cases hm0 : m prev (c :: cs) with
      | none =>
        have hout : replRun m (fun _ => redTok) prev 0 (c :: cs) =
            c :: replRun m (fun _ => redTok) (some c) 0 cs := by
          rw [replRun_zero_cons, hm0]
        rw [hout] at H
        obtain ⟨lo, t0, heq, x, ro, hxr, hsg, hbl, hbr⟩ := H
        cases lo with
        | nil =>
          simp only [List.nil_append] at heq
          rw [← heq] at hxr
          obtain ⟨hxne, hxbr, hxdig⟩ := hfacts x hsg
          cases x with
          | nil => exact absurd rfl hxne
          | cons a x2 =>
            have hca : c = a ∧ replRun m (fun _ => redTok) (some c) 0 cs = x2 ++ ro := by
              constructor
              · have := congrArg (fun l => l.head?) hxr
                simpa using this
              · have := congrArg (fun l => l.tail) hxr
                simpa using this
            obtain ⟨rfl, htail⟩ := hca
            obtain ⟨rr, hcs, hro⟩ := replRun_prefix_trace m x2 cs (some c) ro htail
              (fun ch hch => (hxbr ch (by simp [hch])).1)
            refine ⟨[], c :: x2, rr, by simp [hcs], hsg, ?_, ?_, ?_⟩
            · simpa [prevAt, ctxW] using hbl
            · -- trailing boundary transfers from output to input
              cases hrr : rr with
              | nil =>
                rw [hrr, replRun_nil] at hro
                rw [hro] at hbr
                simpa [wordHead] using hbr
              | cons d ds =>
                cases hm1 : m (prevAt (some c) x2) (d :: ds) with
                | none =>
                  have hroval : ro = d :: replRun m (fun _ => redTok) (some d) 0 ds := by
                    rw [hro, hrr, replRun_zero_cons, hm1]
                  rw [hroval] at hbr
                  simpa [wordHead] using hbr
                | some n2 =>
                  have hroval : ro = redTok ++
                      replRun m (fun _ => redTok) (some d) (n2 - 1) ds := by
                    rw [hro, hrr, replRun_zero_cons, hm1]
                  have hwl : wordLast (c :: x2) = true := by
                    rw [hroval, redTok_head] at hbr
                    have hW : isWordC '[' = false := by decide
                    simpa [wordHead, bdry, hW] using hbr
                  have hl2 := (hms _ _ _ hm1).2.2.1
                  have hpveq : wOpt (prevAt (some c) x2) = wordLast (c :: x2) := by
                    rw [wOpt_prevAt, wordLast_cons]
                    rfl
                  rw [hpveq] at hl2
                  rw [hwl] at hl2 ⊢
                  simpa [wordHead] using hl2
            · simp only [prevAt, List.cons_append]
              rw [← hcs]
              exact hm0
        | cons b lo2 =>
          have hcb : c = b ∧ replRun m (fun _ => redTok) (some c) 0 cs = lo2 ++ t0 := by
            constructor
            · have := congrArg (fun l => l.head?) heq
              simpa using this
            · have := congrArg (fun l => l.tail) heq
              simpa using this
          obtain ⟨rfl, htail⟩ := hcb
          have hbl2 : bdry (ctxW (wOpt (some c)) lo2) (wordHead x) = true := by
            show bdry (ctxW (isWordC c) lo2) (wordHead x) = true
            rw [← ctxW_cons]
            exact hbl
          have H2 : HasSpan σ (wOpt (some c))
              (replRun m (fun _ => redTok) (some c) 0 cs) :=
            ⟨lo2, t0, htail, x, ro, hxr, hsg, hbl2, hbr⟩
          obtain ⟨l2, x2, r2, hcs2, hsg2, hb12, hb22, hn2⟩ := ih cs hcslen (some c) H2
          refine ⟨c :: l2, x2, r2, by simp [hcs2], hsg2, ?_, hb22, ?_⟩
          · rw [prevAt_cons]
            exact hb12
          · rw [prevAt_cons]
            exact hn2
      | some n =>
        obtain ⟨hn1, hnlen, hlead, htrail⟩ := hms prev (c :: cs) n hm0
        obtain ⟨j, rfl⟩ : ∃ j, n = j + 1 := ⟨n - 1, by omega⟩
        have hj : j ≤ cs.length := by
          simp only [List.length_cons] at hnlen
          omega
        obtain ⟨ri, hri⟩ : ∃ t, t = cs.drop j := ⟨_, rfl⟩
        obtain ⟨pv, hpv⟩ : ∃ p, p = prevAt (some c) (cs.take j) := ⟨_, rfl⟩
        obtain ⟨xm, hxm⟩ : ∃ t, t = c :: cs.take j := ⟨_, rfl⟩
        have hout : replRun m (fun _ => redTok) prev 0 (c :: cs) =
            redTok ++ replRun m (fun _ => redTok) pv 0 ri := by
          rw [replRun_zero_cons, hm0]
          show redTok ++ replRun m (fun _ => redTok) (some c) j cs = _
          rw [replRun_skip m _ j (some c) cs hj, ← hpv, ← hri]
        have hxm_take : (c :: cs).take (j + 1) = xm := by
          rw [hxm, List.take_succ_cons]
        have hdrop : (c :: cs).drop (j + 1) = ri := by
          rw [hri, List.drop_succ_cons]
        have hsplit : c :: cs = xm ++ ri := by
          conv_lhs => rw [← List.take_append_drop (j + 1) (c :: cs)]
          rw [hxm_take, hdrop]
        have hpv_eq : prevAt prev xm = pv := by
          rw [hxm, prevAt_cons, hpv]
        have hpv_word : wOpt pv = wordLast xm := by
          rw [← hpv_eq, wOpt_prevAt, hxm, ctxW_cons_eq_wordLast]
        have htrail2 : bdry (wordLast xm) (wordHead ri) = true := by
          rw [hxm_take, hdrop] at htrail
          exact htrail
        have hrilen : ri.length ≤ f := by
          rw [hri]
          simp only [List.length_drop]
          omega
        rw [hout] at H
        have main_inner : HasSpan σ (wOpt pv) (replRun m (fun _ => redTok) pv 0 ri) →
            ∃ l x r, c :: cs = l ++ x ++ r ∧ σ x = true ∧
              bdry (wOpt (prevAt prev l)) (wordHead x) = true ∧
              bdry (wordLast x) (wordHead r) = true ∧
              m (prevAt prev l) (x ++ r) = none := by
          intro H2
          obtain ⟨l2, x2, r2, hri2, hsg2, hb12, hb22, hn2⟩ := ih ri hrilen pv H2
          refine ⟨xm ++ l2, x2, r2, ?_, hsg2, ?_, hb22, ?_⟩
          · rw [hsplit, hri2]
            simp [List.append_assoc]
          · rw [prevAt_append, hpv_eq]
            exact hb12
          · rw [prevAt_append, hpv_eq]
            exact hn2
        have main_head : ∀ (x ro : List Char), σ x = true →
            replRun m (fun _ => redTok) pv 0 ri = x ++ ro →
            bdry (wordLast x) (wordHead ro) = true →
            ∃ l x2 r, c :: cs = l ++ x2 ++ r ∧ σ x2 = true ∧
              bdry (wOpt (prevAt prev l)) (wordHead x2) = true ∧
              bdry (wordLast x2) (wordHead r) = true ∧
              m (prevAt prev l) (x2 ++ r) = none := by
          intro x ro hsg hOr hbr
          obtain ⟨hxne, hxbr, hxdig⟩ := hfacts x hsg
          have hwx : wordHead x = wordHead ri := by
            cases hricase : ri with
            | nil =>
              rw [hricase, replRun_nil] at hOr
              obtain ⟨hx, -⟩ := List.append_eq_nil.mp hOr.symm
              exact absurd hx hxne
            | cons d ds =>
              cases hm1 : m pv (d :: ds) with
              | some n2 =>
                have hval : replRun m (fun _ => redTok) pv 0 ri = redTok ++
                    replRun m (fun _ => redTok) (some d) (n2 - 1) ds := by
                  rw [hricase, replRun_zero_cons, hm1]
                rw [hval, redTok_head] at hOr
                cases x with
                | nil => exact absurd rfl hxne
                | cons a x2 =>
                  have ha : a = '[' := by
                    have := congrArg (fun l => l.head?) hOr
                    simpa using this.symm
                  exact absurd ha (hxbr a (by simp)).1
              | none =>
                have hval : replRun m (fun _ => redTok) pv 0 ri =
                    d :: replRun m (fun _ => redTok) (some d) 0 ds := by
                  rw [hricase, replRun_zero_cons, hm1]
                rw [hval] at hOr
                cases x with
                | nil => exact absurd rfl hxne
                | cons a x2 =>
                  have ha : d = a := by
                    have := congrArg (fun l => l.head?) hOr
                    simpa using this
                  rw [← ha]
                  rfl
          have hlead2 : bdry (wOpt pv) (wordHead x) = true := by
            rw [hpv_word, hwx]
            exact htrail2
          exact main_inner ⟨[], _, by simp, x, ro, hOr, hsg,
            by simpa [ctxW] using hlead2, hbr⟩
        obtain ⟨lo, t0, heq, x, ro, hxr, hsgx, hbl, hbr⟩ := H
        rw [hxr] at heq
        rcases List.append_eq_append_iff.mp heq with ⟨e, hlo, hOr2⟩ | ⟨e, hred, hxro⟩
        · cases e with
          | nil =>
            exact main_head x ro hsgx (by simpa using hOr2) hbr
          | cons b e2 =>
            apply main_inner
            refine ⟨b :: e2, x ++ ro, hOr2, x, ro, rfl, hsgx, ?_, hbr⟩
            rw [hlo, ctxW_append, ctxW_redTok] at hbl
            rw [ctxW_of_ne_nil (by simp) (wOpt pv) false]
            exact hbl
        · cases e with
          | nil =>
            have hOr3 : replRun m (fun _ => redTok) pv 0 ri = x ++ ro := by
              simpa using hxro.symm
            exact main_head x ro hsgx hOr3 hbr
          | cons b e2 =>
            obtain ⟨hxne, hxbr, hxdig⟩ := hfacts x hsgx
            rcases List.append_eq_append_iff.mp hxro with ⟨u, hbu, hrou⟩ | ⟨u, hxu, hOru⟩
            · obtain ⟨cdig, hcin, hcd⟩ := hxdig
              have hcred : cdig ∈ redTok := by
                rw [hred]
                have hmem : cdig ∈ b :: e2 := by
                  rw [hbu]
                  exact List.mem_append_left _ hcin
                exact List.mem_append_right _ hmem
              have hnd := redTok_no_digit_at cdig hcred
              rcases hcd with hd | ha
              · rw [hnd.1] at hd
                exact absurd hd (by simp)
              · exact absurd ha hnd.2
            · have hmem : ']' ∈ x := by
                rw [hxu]
                exact List.mem_append_left _ (redTok_suffix_brack hred (by simp))
              exact absurd rfl (hxbr ']' hmem).2

/-- If the matcher reports a match at a position, there is a shape span there;
hence a match anywhere gives a span anywhere. -/
theorem hasMatch_to_span (σ : List Char → Bool) (m : Option Char → List Char → Option Nat)
    (hs : ∀ prev s n, m prev s = some n → 1 ≤ n ∧ σ (s.take n) = true ∧
      bdry (wOpt prev) (wordHead s) = true ∧
      bdry (wordLast (s.take n)) (wordHead (s.drop n)) = true) :
    ∀ (s : List Char) (prev : Option Char),
    hasMatch m prev s = true → HasSpan σ (wOpt prev) s := by
  intro s
  induction s with
  | nil =>
    intro prev h
    simp only [hasMatch] at h
    obtain ⟨n, hn⟩ := Option.isSome_iff_exists.mp h
    obtain ⟨h0, h1, h2, h3⟩ := hs prev [] n hn
    exact ⟨[], [], by simp, [].take n, [].drop n, by simp, h1, by simpa [ctxW] using h2, h3⟩
  | cons c cs ih =>
    intro prev h
    simp only [hasMatch, Bool.or_eq_true] at h
    rcases h with h | h
    · obtain ⟨n, hn⟩ := Option.isSome_iff_exists.mp h
      obtain ⟨h0, h1, h2, h3⟩ := hs prev (c :: cs) n hn
      obtain ⟨k, rfl⟩ : ∃ k, n = k + 1 := ⟨n - 1, by omega⟩
      refine ⟨[], c :: cs, by simp, (c :: cs).take (k + 1), (c :: cs).drop (k + 1),
        (List.take_append_drop (k + 1) (c :: cs)).symm, h1, ?_, h3⟩
      rw [List.take_succ_cons]
      simpa [ctxW, wordHead] using h2
    · obtain ⟨l, t, hlt, hspan⟩ := ih (some c) h
      refine ⟨c :: l, t, by simp [hlt], ?_⟩
      rw [ctxW_cons]
      exact hspan

/-- If the matcher is complete for its shape, a span anywhere gives a match
anywhere. -/
theorem span_to_hasMatch (σ : List Char → Bool) (m : Option Char → List Char → Option Nat)
    (hc : ∀ prev s, SpanAt σ (wOpt prev) s → (m prev s).isSome = true) :
    ∀ (s : List Char) (prev : Option Char),
    HasSpan σ (wOpt prev) s → hasMatch m prev s = true := by
  intro s
  induction s with
  | nil =>
    intro prev H
    obtain ⟨l, t, hlt, hspan⟩ := H
    obtain ⟨hl, ht⟩ := List.append_eq_nil.mp hlt.symm
    subst hl ht
    simp only [hasMatch]
    exact hc prev [] (by simpa [ctxW] using hspan)
  | cons c cs ih =>
    intro prev H
    obtain ⟨l, t, hlt, hspan⟩ := H
    simp only [hasMatch, Bool.or_eq_true]
    cases l with
    | nil =>
      left
      simp only [List.nil_append] at hlt
      rw [← hlt] at hspan
      exact hc prev (c :: cs) (by simpa [ctxW] using hspan)
    | cons b l2 =>
      right
      have hcb : c = b ∧ cs = l2 ++ t := by
        constructor
        · have := congrArg (fun l => l.head?) hlt
          simpa using this
        · have := congrArg (fun l => l.tail) hlt
          simpa using this
      obtain ⟨rfl, htail⟩ := hcb
      apply ih (some c)
      refine ⟨l2, t, htail, ?_⟩
      rw [ctxW_cons] at hspan
      exact hspan

/-- A full-redact pass leaves no span of its own pattern. -/
theorem self_clear (σ : List Char → Bool) (m : Option Char → List Char → Option Nat)
    (hfacts : ∀ x, σ x = true → x ≠ [] ∧ (∀ c ∈ x, c ≠ '[' ∧ c ≠ ']') ∧
      ∃ c ∈ x, isDigitC c = true ∨ c = '@')
    (hms : ∀ prev t n, m prev t = some n → 1 ≤ n ∧ n ≤ t.length ∧
      bdry (wOpt prev) (wordHead t) = true ∧
      bdry (wordLast (t.take n)) (wordHead (t.drop n)) = true)
    (hcomp : ∀ prev s, SpanAt σ (wOpt prev) s → (m prev s).isSome = true)
    (s : List Char) :
    ¬ HasSpan σ (wOpt none) (replaceAllWith m (fun _ => redTok) s) := by
  intro H
  obtain ⟨l, x, r, hsplit, hsg, hbl, hbr, hnone⟩ :=
    corr_span σ m hfacts hms s.length s (le_refl _) none H
  have hsome : (m (prevAt none l) (x ++ r)).isSome = true :=
    hcomp _ _ ⟨x, r, rfl, hsg, hbl, hbr⟩
  rw [hnone] at hsome
  simp at hsome

/-- A full-redact pass creates no span of any (bracket-free, digit-or-at)
pattern that the input did not already have. -/
theorem pres_clear (σ : List Char → Bool) (m : Option Char → List Char → Option Nat)
    (hfacts : ∀ x, σ x = true → x ≠ [] ∧ (∀ c ∈ x, c ≠ '[' ∧ c ≠ ']') ∧
      ∃ c ∈ x, isDigitC c = true ∨ c = '@')
    (hms : ∀ prev t n, m prev t = some n → 1 ≤ n ∧ n ≤ t.length ∧
      bdry (wOpt prev) (wordHead t) = true ∧
      bdry (wordLast (t.take n)) (wordHead (t.drop n)) = true)
    (s : List Char) (hno : ¬ HasSpan σ (wOpt none) s) :
    ¬ HasSpan σ (wOpt none) (replaceAllWith m (fun _ => redTok) s) := by
  intro H
  obtain ⟨l, x, r, hsplit, hsg, hbl, hbr, -⟩ :=
    corr_span σ m hfacts hms s.length s (le_refl _) none H
  apply hno
  refine ⟨l, x ++ r, by rw [hsplit, List.append_assoc], x, r, rfl, hsg, ?_, hbr⟩
  rwa [← wOpt_prevAt]

/-! ### C2 assembly: per-pattern fact packages -/

theorem ssn_pack : ∀ (prev : Option Char) (t : List Char) (n : Nat),
    matchSSN prev t = some n → 1 ≤ n ∧ n ≤ t.length ∧
    bdry (wOpt prev) (wordHead t) = true ∧
    bdry (wordLast (t.take n)) (wordHead (t.drop n)) = true := by
  intro p t n h
  obtain ⟨a, b, -, d, e⟩ := matchSSN_sound h
  exact ⟨a, b, d, e⟩

theorem card_pack : ∀ (prev : Option Char) (t : List Char) (n : Nat),
    matchCard prev t = some n → 1 ≤ n ∧ n ≤ t.length ∧
    bdry (wOpt prev) (wordHead t) = true ∧
    bdry (wordLast (t.take n)) (wordHead (t.drop n)) = true := by
  intro p t n h
  obtain ⟨a, b, -, d, e⟩ := matchCard_sound h
  exact ⟨a, b, d, e⟩

theorem email_pack : ∀ (prev : Option Char) (t : List Char) (n : Nat),
    matchEmail prev t = some n → 1 ≤ n ∧ n ≤ t.length ∧
    bdry (wOpt prev) (wordHead t) = true ∧
    bdry (wordLast (t.take n)) (wordHead (t.drop n)) = true := by
  intro p t n h
  obtain ⟨a, b, -, d, e⟩ := matchEmail_sound h
  exact ⟨a, b, d, e⟩

theorem phone_pack : ∀ (prev : Option Char) (t : List Char) (n : Nat),
    matchPhone10 prev t = some n → 1 ≤ n ∧ n ≤ t.length ∧
    bdry (wOpt prev) (wordHead t) = true ∧
    bdry (wordLast (t.take n)) (wordHead (t.drop n)) = true := by
  intro p t n h
  obtain ⟨a, b, -, d, e⟩ := matchPhone10_sound h
  exact ⟨a, b, d, e⟩

theorem date_pack : ∀ (prev : Option Char) (t : List Char) (n : Nat),
    matchDate prev t = some n → 1 ≤ n ∧ n ≤ t.length ∧
    bdry (wOpt prev) (wordHead t) = true ∧
    bdry (wordLast (t.take n)) (wordHead (t.drop n)) = true := by
  intro p t n h
  obtain ⟨a, b, -, d, e⟩ := matchDate_sound h
  exact ⟨a, b, d, e⟩

theorem ssn_pack2 : ∀ (prev : Option Char) (t : List Char) (n : Nat),
    matchSSN prev t = some n → 1 ≤ n ∧ ssnShape (t.take n) = true ∧
    bdry (wOpt prev) (wordHead t) = true ∧
    bdry (wordLast (t.take n)) (wordHead (t.drop n)) = true := by
  intro p t n h
  obtain ⟨a, -, c, d, e⟩ := matchSSN_sound h
  exact ⟨a, c, d, e⟩

theorem card_pack2 : ∀ (prev : Option Char) (t : List Char) (n : Nat),
    matchCard prev t = some n → 1 ≤ n ∧ cardShape (t.take n) = true ∧
    bdry (wOpt prev) (wordHead t) = true ∧
    bdry (wordLast (t.take n)) (wordHead (t.drop n)) = true := by
  intro p t n h
  obtain ⟨a, -, c, d, e⟩ := matchCard_sound h
  exact ⟨a, c, d, e⟩

theorem email_pack2 : ∀ (prev : Option Char) (t : List Char) (n : Nat),
    matchEmail prev t = some n → 1 ≤ n ∧ emailShape (t.take n) = true ∧
    bdry (wOpt prev) (wordHead t) = true ∧
    bdry (wordLast (t.take n)) (wordHead (t.drop n)) = true := by
  intro p t n h
  obtain ⟨a, -, c, d, e⟩ := matchEmail_sound h
  exact ⟨a, c, d, e⟩

theorem phone_pack2 : ∀ (prev : Option Char) (t : List Char) (n : Nat),
    matchPhone10 prev t = some n → 1 ≤ n ∧ phoneShape (t.take n) = true ∧
    bdry (wOpt prev) (wordHead t) = true ∧
    bdry (wordLast (t.take n)) (wordHead (t.drop n)) = true := by
  intro p t n h
  obtain ⟨a, -, c, d, e⟩ := matchPhone10_sound h
  exact ⟨a, c, d, e⟩

theorem date_pack2 : ∀ (prev : Option Char) (t : List Char) (n : Nat),
    matchDate prev t = some n → 1 ≤ n ∧ dateShape (t.take n) = true ∧
    bdry (wOpt prev) (wordHead t) = true ∧
    bdry (wordLast (t.take n)) (wordHead (t.drop n)) = true := by
  intro p t n h
  obtain ⟨a, -, c, d, e⟩ := matchDate_sound h
  exact ⟨a, c, d, e⟩

/-! ### Untouched-segment survival (mask_partial frame) -/

theorem replTouched_nil (m : Option Char → List Char → Option Nat)
    (prev : Option Char) (skip : Nat) : replTouched m prev skip [] = [] := by
  cases skip <;> rfl

theorem replTouched_succ_cons (m : Option Char → List Char → Option Nat)
    (prev : Option Char) (k : Nat) (c : Char) (cs : List Char) :
    replTouched m prev (k + 1) (c :: cs) = true :: replTouched m (some c) k cs := rfl

theorem replTouched_zero_cons (m : Option Char → List Char → Option Nat)
    (prev : Option Char) (c : Char) (cs : List Char) :
    replTouched m prev 0 (c :: cs) =
      match m prev (c :: cs) with
      | some n => true :: replTouched m (some c) (n - 1) cs
      | none => false :: replTouched m (some c) 0 cs := rfl

theorem replRun_succ_cons (m : Option Char → List Char → Option Nat)
    (rep : List Char → List Char) (prev : Option Char) (k : Nat)
    (c : Char) (cs : List Char) :
    replRun m rep prev (k + 1) (c :: cs) = replRun m rep (some c) k cs := rfl

/-- If the scan never touches the characters of a segment of the input, the
segment appears contiguously and unchanged in the output of the pass. -/
theorem surv_run (m : Option Char → List Char → Option Nat)
    (rep : List Char → List Char) :
    ∀ (rest : List Char) (prev : Option Char) (skip : Nat) (l x r : List Char),
    rest = l ++ x ++ r →
    (((replTouched m prev skip rest).drop l.length).take x.length).all
      (fun b => !b) = true →
    ∃ l2 r2, replRun m rep prev skip rest = l2 ++ x ++ r2 ∧
      (l = [] → x ≠ [] → l2 = []) := by
  intro rest
  induction rest with
  | nil =>
    intro prev skip l x r hrest huntouched
    obtain ⟨hlx, hr⟩ := List.append_eq_nil.mp hrest.symm
    obtain ⟨hl, hx⟩ := List.append_eq_nil.mp hlx
    subst hx
    refine ⟨[], [], ?_, fun _ hne => rfl⟩
    rw [replRun_nil]
    simp
  | cons c cs ih =>
    intro prev skip l x r hrest huntouched
    cases skip with
    | succ k =>
      cases l with
      | nil =>
        cases x with
        | nil =>
          exact ⟨replRun m rep prev (k + 1) (c :: cs), [], by simp,
            fun _ hne => absurd rfl hne⟩
        | cons a x2 =>
          exfalso
          rw [replTouched_succ_cons] at huntouched
          simp at huntouched
      | cons b l2 =>
        have hcb : c = b ∧ cs = l2 ++ x ++ r := by
          constructor
          · have := congrArg (fun t => t.head?) hrest
            simpa using this
          · have := congrArg (fun t => t.tail) hrest
            simpa using this
        obtain ⟨rfl, htail⟩ := hcb
        rw [replTouched_succ_cons] at huntouched
        have hun2 : (((replTouched m (some c) k cs).drop l2.length).take x.length).all
            (fun b => !b) = true := by
          simpa using huntouched
        obtain ⟨l2a, r2a, hout, -⟩ := ih (some c) k l2 x r htail hun2
        refine ⟨l2a, r2a, ?_, fun h => absurd h (by simp)⟩
        rw [replRun_succ_cons]
        exact hout
    | zero =>
      cases hm0 : m prev (c :: cs) with
      | some n =>
        have hmk : replTouched m prev 0 (c :: cs) =
            true :: replTouched m (some c) (n - 1) cs := by
          rw [replTouched_zero_cons, hm0]
        have hov : replRun m rep prev 0 (c :: cs) =
            rep ((c :: cs).take n) ++ replRun m rep (some c) (n - 1) cs := by
          rw [replRun_zero_cons, hm0]
        cases l with
        | nil =>
          cases x with
          | nil =>
            exact ⟨replRun m rep prev 0 (c :: cs), [], by simp,
              fun _ hne => absurd rfl hne⟩
          | cons a x2 =>
            exfalso
            rw [hmk] at huntouched
            simp at huntouched
        | cons b l2 =>
          have hcb : c = b ∧ cs = l2 ++ x ++ r := by
            constructor
            · have := congrArg (fun t => t.head?) hrest
              simpa using this
            · have := congrArg (fun t => t.tail) hrest
              simpa using this
          obtain ⟨rfl, htail⟩ := hcb
          rw [hmk] at huntouched
          have hun2 : (((replTouched m (some c) (n - 1) cs).drop l2.length).take
              x.length).all (fun b => !b) = true := by
            simpa using huntouched
          obtain ⟨l2a, r2a, hout, -⟩ := ih (some c) (n - 1) l2 x r htail hun2
          refine ⟨rep ((c :: cs).take n) ++ l2a, r2a, ?_,
            fun h => absurd h (by simp)⟩
          rw [hov, hout]
          simp [List.append_assoc]
      | none =>
        have hmk : replTouched m prev 0 (c :: cs) =
            false :: replTouched m (some c) 0 cs := by
          rw [replTouched_zero_cons, hm0]
        have hov : replRun m rep prev 0 (c :: cs) =
            c :: replRun m rep (some c) 0 cs := by
          rw [replRun_zero_cons, hm0]
        cases l with
        | cons b l2 =>
          have hcb : c = b ∧ cs = l2 ++ x ++ r := by
            constructor
            · have := congrArg (fun t => t.head?) hrest
              simpa using this
            · have := congrArg (fun t => t.tail) hrest
              simpa using this
          obtain ⟨rfl, htail⟩ := hcb
          rw [hmk] at huntouched
          have hun2 : (((replTouched m (some c) 0 cs).drop l2.length).take
              x.length).all (fun b => !b) = true := by
            simpa using huntouched
          obtain ⟨l2a, r2a, hout, -⟩ := ih (some c) 0 l2 x r htail hun2
          refine ⟨c :: l2a, r2a, ?_, fun h => absurd h (by simp)⟩
          rw [hov, hout]
          simp
        | nil =>
          cases x with
          | nil =>
            exact ⟨replRun m rep prev 0 (c :: cs), [], by simp,
              fun _ hne => absurd rfl hne⟩
          | cons a x2 =>
            have hca : c = a ∧ cs = x2 ++ r := by
              constructor
              · have := congrArg (fun t => t.head?) hrest
                simpa using this
              · have := congrArg (fun t => t.tail) hrest
                simpa using this
            obtain ⟨rfl, htail⟩ := hca
            rw [hmk] at huntouched
            have hun2 : ((List.take x2.length (replTouched m (some c) 0 cs)).all
                (fun b => !b)) = true := by
              simp only [List.drop_zero, List.length_cons, List.take_succ_cons,
                List.all_cons] at huntouched
              simpa using huntouched
            obtain ⟨l2a, r2a, hout, hside⟩ := ih (some c) 0 [] x2 r htail
              (by simpa using hun2)
            cases hx2 : x2 with
            | nil =>
              refine ⟨[], replRun m rep (some c) 0 cs, ?_, fun _ _ => rfl⟩
              rw [hov]
              simp [hx2]
            | cons d x3 =>
              have hl2a : l2a = [] := hside rfl (by simp [hx2])
              rw [hl2a] at hout
              refine ⟨[], r2a, ?_, fun _ _ => rfl⟩
              rw [hov, hout]
              simp [hx2]

/-- Untouched segments of the input survive a whole replace pass. -/
theorem surv (m : Option Char → List Char → Option Nat)
    (rep : List Char → List Char) (s l x r : List Char)
    (hrest : s = l ++ x ++ r)
    (hu : untouchedSeg m s l.length x.length = true) :
    ∃ l2 r2, replaceAllWith m rep s = l2 ++ x ++ r2 := by
  obtain ⟨l2, r2, hout, -⟩ := surv_run m rep s none 0 l x r hrest hu
  exact ⟨l2, r2, hout⟩

/-! ## C1 -/

/-- C1: for every message and policy, if the lower-cased message contains any
configured emergency keyword (case-insensitive substring containment), then
`classifyContent` returns `category = emergency`, `action = immediate_redirect`,
`priority = critical`, regardless of any other content of the message. -/
theorem C1_classify_emergency_precedence (policy : Policy) (msg kw : List Char)
    (hmem : kw ∈ policy.emergencyKeywords)
    (hinc : includesL (toLowerL kw) (toLowerL msg) = true) :
    classifyContent policy msg = ⟨"emergency", "immediate_redirect", "critical"⟩ := by
  have h : (policy.emergencyKeywords.any fun k => includesL (toLowerL k) (toLowerL msg)) = true :=
    List.any_eq_true.mpr ⟨kw, hmem, hinc⟩
  simp [classifyContent, h]

/-- Witness for C1 at a concrete policy and a message that also contains a
strict-block phrase and an allowed-domain phrase. -/
theorem C1_classify_emergency_precedence_witness :
    "911".toList ∈ policyA.emergencyKeywords ∧
    includesL (toLowerL "diagnosis".toList) (toLowerL msg911) = true ∧
    includesL (toLowerL "eligibility".toList) (toLowerL msg911) = true ∧
    classifyContent policyA msg911 = ⟨"emergency", "immediate_redirect", "critical"⟩ :=
  ⟨by decide, by decide, by decide,
    C1_classify_emergency_precedence policyA msg911 "911".toList (by decide) (by decide)⟩

/-! ## C2 -/

/-- C2: for every input string, `redactPHI(text, 'full_redact')` contains no
substring matching any of the five PHI detector patterns (SSN, 16-digit
grouped card number, email address, 10-11 digit phone sequence,
slash-delimited date): `detectPHI` applied to the redacted text returns the
empty detection list. -/
theorem C2_full_redact_clean (s : List Char) :
    detectPHI (redactPHI s "full_redact") = [] := by
  have hmode : redactPHI s "full_redact" = redactFull s := by
    rw [redactPHI, if_neg (by decide), if_pos rfl]
  have hfS : ∀ x, ssnShape x = true → x ≠ [] ∧ (∀ c ∈ x, c ≠ '[' ∧ c ≠ ']') ∧
      ∃ c ∈ x, isDigitC c = true ∨ c = '@' := fun x h => ssnShape_facts h
  have hfC : ∀ x, cardShape x = true → x ≠ [] ∧ (∀ c ∈ x, c ≠ '[' ∧ c ≠ ']') ∧
      ∃ c ∈ x, isDigitC c = true ∨ c = '@' := fun x h => cardShape_facts h
  have hfE : ∀ x, emailShape x = true → x ≠ [] ∧ (∀ c ∈ x, c ≠ '[' ∧ c ≠ ']') ∧
      ∃ c ∈ x, isDigitC c = true ∨ c = '@' := fun x h => emailShape_facts h
  have hfP : ∀ x, phoneShape x = true → x ≠ [] ∧ (∀ c ∈ x, c ≠ '[' ∧ c ≠ ']') ∧
      ∃ c ∈ x, isDigitC c = true ∨ c = '@' := fun x h => phoneShape_facts h
  have hfD : ∀ x, dateShape x = true → x ≠ [] ∧ (∀ c ∈ x, c ≠ '[' ∧ c ≠ ']') ∧
      ∃ c ∈ x, isDigitC c = true ∨ c = '@' := fun x h => dateShape_facts h
  set o1 := replaceAllWith matchSSN (fun _ => redTok) s with ho1
  set o2 := replaceAllWith matchCard (fun _ => redTok) o1 with ho2
  set o3 := replaceAllWith matchEmail (fun _ => redTok) o2 with ho3
  set o4 := replaceAllWith matchPhone10 (fun _ => redTok) o3 with ho4
  set o5 := replaceAllWith matchDate (fun _ => redTok) o4 with ho5
  have nS1 : ¬ HasSpan ssnShape (wOpt none) o1 :=
    self_clear _ _ hfS ssn_pack (fun p t h => matchSSN_complete h) s
  have nS2 : ¬ HasSpan ssnShape (wOpt none) o2 := pres_clear _ _ hfS card_pack o1 nS1
  have nC2 : ¬ HasSpan cardShape (wOpt none) o2 :=
    self_clear _ _ hfC card_pack (fun p t h => matchCard_complete h) o1
  have nS3 : ¬ HasSpan ssnShape (wOpt none) o3 := pres_clear _ _ hfS email_pack o2 nS2
  have nC3 : ¬ HasSpan cardShape (wOpt none) o3 := pres_clear _ _ hfC email_pack o2 nC2
  have nE3 : ¬ HasSpan emailShape (wOpt none) o3 :=
    self_clear _ _ hfE email_pack (fun p t h => matchEmail_complete h) o2
  have nS4 : ¬ HasSpan ssnShape (wOpt none) o4 := pres_clear _ _ hfS phone_pack o3 nS3
  have nC4 : ¬ HasSpan cardShape (wOpt none) o4 := pres_clear _ _ hfC phone_pack o3 nC3
  have nE4 : ¬ HasSpan emailShape (wOpt none) o4 := pres_clear _ _ hfE phone_pack o3 nE3
  have nP4 : ¬ HasSpan phoneShape (wOpt none) o4 :=
    self_clear _ _ hfP phone_pack (fun p t h => matchPhone10_complete h) o3
  have nS5 : ¬ HasSpan ssnShape (wOpt none) o5 := pres_clear _ _ hfS date_pack o4 nS4
  have nC5 : ¬ HasSpan cardShape (wOpt none) o5 := pres_clear _ _ hfC date_pack o4 nC4
  have nE5 : ¬ HasSpan emailShape (wOpt none) o5 := pres_clear _ _ hfE date_pack o4 nE4
  have nP5 : ¬ HasSpan phoneShape (wOpt none) o5 := pres_clear _ _ hfP date_pack o4 nP4
  have nD5 : ¬ HasSpan dateShape (wOpt none) o5 :=
    self_clear _ _ hfD date_pack (fun p t h => matchDate_complete h) o4
  have m1 : hasMatch matchSSN none o5 = false := by
    by_contra hb
    rw [Bool.not_eq_false] at hb
    exact nS5 (hasMatch_to_span ssnShape matchSSN ssn_pack2 o5 none hb)
  have m2 : hasMatch matchCard none o5 = false := by
    by_contra hb
    rw [Bool.not_eq_false] at hb
    exact nC5 (hasMatch_to_span cardShape matchCard card_pack2 o5 none hb)
  have m3 : hasMatch matchEmail none o5 = false := by
    by_contra hb
    rw [Bool.not_eq_false] at hb
    exact nE5 (hasMatch_to_span emailShape matchEmail email_pack2 o5 none hb)
  have m4 : hasMatch matchPhone10 none o5 = false := by
    by_contra hb
    rw [Bool.not_eq_false] at hb
    exact nP5 (hasMatch_to_span phoneShape matchPhone10 phone_pack2 o5 none hb)
  have m5 : hasMatch matchDate none o5 = false := by
    by_contra hb
    rw [Bool.not_eq_false] at hb
    exact nD5 (hasMatch_to_span dateShape matchDate date_pack2 o5 none hb)
  rw [hmode]
  show detectPHI o5 = []
  rw [detectPHI, m1, m2, m3, m4, m5]
  rfl

/-! ## C7 -/

/-- C7: merging the same fragment twice yields the same profile as merging it
once on every data field; only the interaction count and the timestamp columns
can differ. -/
theorem C7_merge_idempotent (now1 now2 : Nat) (p : Profile) (f : Fragment) :
    stripMeta (updateProfileData now2 (updateProfileData now1 p f) f) =
      stripMeta (updateProfileData now1 p f) := by
  by_cases h : hasMappedField f
  · simp [updateProfileData, h, stripMeta, mergeField_self]
  · simp [updateProfileData, h]

/-! ## C8 -/

/-- Counterexample to C8: a fragment with no recognized (mapped) key — here one
holding only the unmapped `phoneNumber` — leaves the profile entirely
unchanged; in particular the interaction count is *not* incremented and no
timestamp is written. -/
theorem C8_counterexample :
    updateProfileData 5 blankProfile phoneOnlyFragment = blankProfile ∧
    (updateProfileData 5 blankProfile phoneOnlyFragment).sms_conversation_count ≠
      blankProfile.sms_conversation_count + 1 ∧
    (updateProfileData 5 blankProfile phoneOnlyFragment).last_updated_via_sms = none := by
  refine ⟨rfl, ?_, rfl⟩
  decide

/-- C8 (amended): when the fragment holds at least one recognized key, the merge
overwrites exactly the columns of the present keys (last-write-wins), keeps all
other columns, increments the interaction count by one and updates the
timestamps; when it holds none, the merge returns the profile unchanged. -/
theorem C8_merge_key_behavior (now : Nat) (p : Profile) (f : Fragment) :
    (hasMappedField f = true →
      (∀ k : FKey, profGet k (updateProfileData now p f) =
        mergeField (fragGet k f) (profGet k p)) ∧
      (updateProfileData now p f).age = mergeField f.age p.age ∧
      (updateProfileData now p f).sms_conversation_count = p.sms_conversation_count + 1 ∧
      (updateProfileData now p f).updated_at = some now ∧
      (updateProfileData now p f).last_updated_via_sms = some now ∧
      (updateProfileData now p f).primary_phone = p.primary_phone ∧
      (updateProfileData now p f).secondary_phone = p.secondary_phone) ∧
    (hasMappedField f = false → updateProfileData now p f = p) := by
  constructor
  · intro h
    refine ⟨fun k => ?_, ?_, ?_, ?_, ?_, ?_, ?_⟩
    · cases k <;> simp [profGet, fragGet, updateProfileData, h]
    all_goals simp [updateProfileData, h]
  · intro h
    simp [updateProfileData, h]

/-- Witness for C8 (amended) at concrete fragments with and without mapped keys. -/
theorem C8_merge_key_behavior_witness :
    profGet FKey.firstName (updateProfileData 7 blankProfile annFragment) = some "Ann" ∧
    (updateProfileData 7 blankProfile annFragment).sms_conversation_count = 1 ∧
    updateProfileData 7 blankProfile phoneOnlyFragment = blankProfile := by
  have h1 := (C8_merge_key_behavior 7 blankProfile annFragment).1 (by decide)
  have h2 := (C8_merge_key_behavior 7 blankProfile phoneOnlyFragment).2 (by decide)
  exact ⟨(h1.1 FKey.firstName).trans rfl, (h1.2.2.1).trans rfl, h2⟩

/-! ## C9 -/

/-- Counterexample to C9: `classifyContent` applied to a non-string message
throws a `TypeError` instead of returning `unknown`; and with a policy whose
emergency list holds the empty string, the empty message is classified as
`emergency`, not `unknown`. -/
theorem C9_counterexample :
    classifyContentJS policyA JSVal.nullV = Except.error "TypeError" ∧
    (classifyContent policyEmptyKw []).category = "emergency" := by
  exact ⟨rfl, rfl⟩

/-- C9 (amended): for a policy with no empty phrase, the empty message
classifies as `unknown` (classification never throws on strings); the extractor
returns the empty fragment on the empty message, and on any non-string input it
returns the empty fragment rather than throwing; `classifyContent` itself,
however, throws a `TypeError` on non-string input (its HTTP callers validate the
message first). -/
theorem C9_degraded_inputs (policy : Policy)
    (h : policyPhrasesNonEmpty policy = true) :
    classifyContent policy [] = ⟨"unknown", "brief_redirect", "low"⟩ ∧
    extractInformationFromSMS [] = emptyFragment ∧
    ∀ v : JSVal, (∀ s, v ≠ JSVal.str s) →
      extractInformationFromSMSJS v = emptyFragment ∧
      classifyContentJS policy v = Except.error "TypeError" := by
  have hh := h
  simp only [policyPhrasesNonEmpty, Bool.and_eq_true] at hh
  obtain ⟨⟨⟨⟨⟨h1, h2⟩, h3⟩, h4⟩, h5⟩, h6⟩ := hh
  refine ⟨?_, rfl, ?_⟩
  · have e1 := any_includes_nil_eq_false _ h1
    have e2 := any_includes_nil_eq_false _ h2
    have e3 := any_includes_nil_eq_false _ h3
    have e4 := any_includes_nil_eq_false _ h4
    have e5 := any_includes_nil_eq_false _ h5
    have e6 := any_includes_nil_eq_false _ h6
    simp [classifyContent, e1, e2, e3, e4, e5, e6]
  · intro v hv
    cases v with
    | str s => exact absurd rfl (hv s)
    | nullV => exact ⟨rfl, rfl⟩
    | undefV => exact ⟨rfl, rfl⟩
    | numV n => exact ⟨rfl, rfl⟩

/-- Witness for C9 (amended) at a concrete policy. -/
theorem C9_degraded_inputs_witness :
    classifyContent policyA [] = ⟨"unknown", "brief_redirect", "low"⟩ ∧
    extractInformationFromSMSJS JSVal.undefV = emptyFragment ∧
    classifyContentJS policyA JSVal.undefV = Except.error "TypeError" := by
  have h := C9_degraded_inputs policyA (by decide)
  have h3 := h.2.2 JSVal.undefV (fun s hs => JSVal.noConfusion hs)
  exact ⟨h.1, h3.1, h3.2⟩

/-! ## C3 -/

/-- Counterexample to C3: on the spec scenario message the conversation stage is
`address` (the extracted zip code triggers the address rule first), not
`intake` as the claim states. -/
theorem C3_counterexample :
    determineConversationStage mariaMsg (extractInformationFromSMS mariaMsg) = "address" ∧
    determineConversationStage mariaMsg (extractInformationFromSMS mariaMsg) ≠ "intake" := by
  refine ⟨rfl, ?_⟩
  decide

/-- C3 (amended): the scenario message extracts exactly
`{firstName := Maria, lastName := Lopez, age := 34, zipCode := 89101}`; merging
that fragment into a blank profile yields completion percentage 27 (the weight
table gives 120 of 440 points: first name, last name and zip present, phone
missing); and the resolved stage for this message and fragment is `address`. -/
theorem C3_maria_scenario (now : Nat) :
    extractInformationFromSMS mariaMsg = mariaFragment ∧
    calculateCompletionPercentage (updateProfileData now blankProfile mariaFragment) = 27 ∧
    determineConversationStage mariaMsg mariaFragment = "address" := by
  refine ⟨by decide, ?_, rfl⟩
  have hs : completionScore (updateProfileData now blankProfile mariaFragment) = 120 := rfl
  simp only [calculateCompletionPercentage, hs]
  decide

/-! ## C4 -/

/-- Counterexample to C4: a profile with every checklist field filled but no
primary phone has an empty `getMissingProfileInfo` list, while the
required-plus-important field set of the completion table is not all present
(the required `primary_phone` is missing). -/
theorem C4_counterexample :
    getMissingProfileInfo profileNoPhone = [] ∧
    ((requiredFields ++ importantFields).all
      fun fld => presentB (getCol fld profileNoPhone)) = false := by
  exact ⟨rfl, rfl⟩

/-- C4 (amended): `getMissingProfileInfo` returns the empty list iff every
required field other than `primary_phone` and every important field of the
completion weight table is present under the non-empty-after-trim rule
(`primary_phone` is required for completion but never checked by
`getMissingProfileInfo`). -/
theorem C4_missing_iff_required_important (p : Profile) :
    getMissingProfileInfo p = [] ↔
      (((requiredFields.filter fun fld => fld ≠ "primary_phone") ++ importantFields).all
        fun fld => presentB (getCol fld p)) = true := by
  simp [getMissingProfileInfo, missingChecklist, requiredFields, importantFields,
    List.filter_eq_nil_iff, List.all_eq_true, getCol]
  tauto

/-! ## C5 -/

/-- A checklist field is found among the missing fields iff it is not present. -/
theorem find_missing_isSome (p : Profile) (fld lab : String)
    (hmem : (fld, lab) ∈ missingChecklist) :
    (((getMissingProfileInfo p).find? fun m => m.1 = fld).isSome = true) ↔
      presentB (getCol fld p) = false := by
  rw [List.find?_isSome]
  constructor
  · rintro ⟨x, hx, hpx⟩
    rw [getMissingProfileInfo, List.mem_filter] at hx
    have hx1 : x.1 = fld := by simpa using hpx
    have := hx.2
    rw [hx1] at this
    simpa using this
  · intro hnp
    refine ⟨(fld, lab), ?_, by simp⟩
    rw [getMissingProfileInfo, List.mem_filter]
    exact ⟨hmem, by simp [hnp]⟩

/-- Counterexample to C5: with only the emergency-contact name missing and
resolved stage `address`, the generator returns the generic thank-you
acknowledgment instead of falling back to the highest-priority missing field. -/
theorem C5_counterexample :
    getMissingProfileInfo profileNoEcName =
      [("emergency_contact_1_name", "Emergency Contact Name")] ∧
    generateNextQuestions profileNoEcName "address" = ["Thank you for the information!"] ∧
    generateNextQuestions profileNoEcName "address" ≠
      ["Could you provide your emergency contact name?"] := by
  refine ⟨rfl, rfl, ?_⟩
  decide

/-- C5 (amended): if nothing is missing, every stage yields the single closing
acknowledgment.  Otherwise each slot-specific stage asks for the first
still-missing field relevant to it — intake: first name, last name, date of
birth; address: street, city, zip; emergency_contact: contact name, contact
phone — and returns a generic thank-you when none of its fields is missing;
only for a stage outside {intake, address, emergency_contact} does the
generator fall back to the single highest-priority globally-missing field. -/
theorem C5_next_questions (p : Profile) (stage : String) :
    (getMissingProfileInfo p = [] →
      generateNextQuestions p stage =
        ["Thank you! Your profile is complete. Is there anything you" ++ apoS ++
          "d like to update?"]) ∧
    (getMissingProfileInfo p ≠ [] → stage = "intake" →
      generateNextQuestions p stage =
        (if presentB (getCol "first_name" p) = false then
          ["What" ++ apoS ++ "s your first name?"]
        else if presentB (getCol "last_name" p) = false then
          ["What" ++ apoS ++ "s your last name?"]
        else if presentB (getCol "date_of_birth" p) = false then
          ["What" ++ apoS ++ "s your date of birth? (MM/DD/YYYY)"]
        else ["Thank you for the information!"])) ∧
    (getMissingProfileInfo p ≠ [] → stage = "address" →
      generateNextQuestions p stage =
        (if presentB (getCol "street_address" p) = false then
          ["What" ++ apoS ++ "s your street address?"]
        else if presentB (getCol "city" p) = false then
          ["What city do you live in?"]
        else if presentB (getCol "zip_code" p) = false then
          ["What" ++ apoS ++ "s your ZIP code?"]
        else ["Thank you for the information!"])) ∧
    (getMissingProfileInfo p ≠ [] → stage = "emergency_contact" →
      generateNextQuestions p stage =
        (if presentB (getCol "emergency_contact_1_name" p) = false then
          ["Who should we contact in case of emergency?"]
        else if presentB (getCol "emergency_contact_1_phone" p) = false then
          ["What" ++ apoS ++ "s their phone number?"]
        else ["Thank you for the information!"])) ∧
    (getMissingProfileInfo p ≠ [] → stage ≠ "intake" → stage ≠ "address" →
      stage ≠ "emergency_contact" →
      ∃ fl rest, getMissingProfileInfo p = fl :: rest ∧
        generateNextQuestions p stage = ["Could you provide your " ++ fl.2.toLower ++ "?"]) := by
  have hemp : getMissingProfileInfo p ≠ [] → (getMissingProfileInfo p).isEmpty = false := by
    intro hne
    simpa [List.isEmpty_iff] using hne
  refine ⟨?_, ?_, ?_, ?_, ?_⟩
  · intro he
    simp [generateNextQuestions, he]
  · intro hne hstage
    subst hstage
    have hfn := find_missing_isSome p "first_name" "First Name" (by simp [missingChecklist])
    have hln := find_missing_isSome p "last_name" "Last Name" (by simp [missingChecklist])
    have hdob := find_missing_isSome p "date_of_birth" "Date of Birth" (by simp [missingChecklist])
    by_cases h1 : presentB (getCol "first_name" p) = false
    · have := hfn.mpr h1
      simp [generateNextQuestions, hemp hne, this, h1]
    · have hs1 : (((getMissingProfileInfo p).find? fun m => m.1 = "first_name").isSome) = false := by
        rcases Bool.eq_false_or_eq_true (((getMissingProfileInfo p).find? fun m =>
          m.1 = "first_name").isSome) with h | h
        · exact absurd (hfn.mp h) h1
        · exact h
      by_cases h2 : presentB (getCol "last_name" p) = false
      · have := hln.mpr h2
        simp [generateNextQuestions, hemp hne, hs1, this, h1, h2]
      · have hs2 : (((getMissingProfileInfo p).find? fun m => m.1 = "last_name").isSome) = false := by
          rcases Bool.eq_false_or_eq_true (((getMissingProfileInfo p).find? fun m =>
            m.1 = "last_name").isSome) with h | h
          · exact absurd (hln.mp h) h2
          · exact h
        by_cases h3 : presentB (getCol "date_of_birth" p) = false
        · have := hdob.mpr h3
          simp [generateNextQuestions, hemp hne, hs1, hs2, this, h1, h2, h3]
        · have hs3 : (((getMissingProfileInfo p).find? fun m => m.1 = "date_of_birth").isSome) = false := by
            rcases Bool.eq_false_or_eq_true (((getMissingProfileInfo p).find? fun m =>
              m.1 = "date_of_birth").isSome) with h | h
            · exact absurd (hdob.mp h) h3
            · exact h
          simp [generateNextQuestions, hemp hne, hs1, hs2, hs3, h1, h2, h3]
  · intro hne hstage
    subst hstage
    have hstreet := find_missing_isSome p "street_address" "Street Address" (by simp [missingChecklist])
    have hcity := find_missing_isSome p "city" "City" (by simp [missingChecklist])
    have hzip := find_missing_isSome p "zip_code" "ZIP Code" (by simp [missingChecklist])
    by_cases h1 : presentB (getCol "street_address" p) = false
    · have := hstreet.mpr h1
      simp [generateNextQuestions, hemp hne, this, h1]
    · have hs1 : (((getMissingProfileInfo p).find? fun m => m.1 = "street_address").isSome) = false := by
        rcases Bool.eq_false_or_eq_true (((getMissingProfileInfo p).find? fun m =>
          m.1 = "street_address").isSome) with h | h
        · exact absurd (hstreet.mp h) h1
        · exact h
      by_cases h2 : presentB (getCol "city" p) = false
      · have := hcity.mpr h2
        simp [generateNextQuestions, hemp hne, hs1, this, h1, h2]
      · have hs2 : (((getMissingProfileInfo p).find? fun m => m.1 = "city").isSome) = false := by
          rcases Bool.eq_false_or_eq_true (((getMissingProfileInfo p).find? fun m =>
            m.1 = "city").isSome) with h | h
          · exact absurd (hcity.mp h) h2
          · exact h
        by_cases h3 : presentB (getCol "zip_code" p) = false
        · have := hzip.mpr h3
          simp [generateNextQuestions, hemp hne, hs1, hs2, this, h1, h2, h3]
        · have hs3 : (((getMissingProfileInfo p).find? fun m => m.1 = "zip_code").isSome) = false := by
            rcases Bool.eq_false_or_eq_true (((getMissingProfileInfo p).find? fun m =>
              m.1 = "zip_code").isSome) with h | h
            · exact absurd (hzip.mp h) h3
            · exact h
          simp [generateNextQuestions, hemp hne, hs1, hs2, hs3, h1, h2, h3]
  · intro hne hstage
    subst hstage
    have hen := find_missing_isSome p "emergency_contact_1_name" "Emergency Contact Name"
      (by simp [missingChecklist])
    have hep := find_missing_isSome p "emergency_contact_1_phone" "Emergency Contact Phone"
      (by simp [missingChecklist])
    by_cases h1 : presentB (getCol "emergency_contact_1_name" p) = false
    · have := hen.mpr h1
      simp [generateNextQuestions, hemp hne, this, h1]
    · have hs1 : (((getMissingProfileInfo p).find? fun m =>
          m.1 = "emergency_contact_1_name").isSome) = false := by
        rcases Bool.eq_false_or_eq_true (((getMissingProfileInfo p).find? fun m =>
          m.1 = "emergency_contact_1_name").isSome) with h | h
        · exact absurd (hen.mp h) h1
        · exact h
      by_cases h2 : presentB (getCol "emergency_contact_1_phone" p) = false
      · have := hep.mpr h2
        simp [generateNextQuestions, hemp hne, hs1, this, h1, h2]
      · have hs2 : (((getMissingProfileInfo p).find? fun m =>
            m.1 = "emergency_contact_1_phone").isSome) = false := by
          rcases Bool.eq_false_or_eq_true (((getMissingProfileInfo p).find? fun m =>
            m.1 = "emergency_contact_1_phone").isSome) with h | h
          · exact absurd (hep.mp h) h2
          · exact h
        simp [generateNextQuestions, hemp hne, hs1, hs2, h1, h2]
  · intro hne hi ha he
    rcases hm : getMissingProfileInfo p with _ | ⟨fl, rest⟩
    · exact absurd hm hne
    · refine ⟨fl, rest, rfl, ?_⟩
      simp [generateNextQuestions, hemp hne, hm, hi, ha, he]

/-- Witness for C5 (amended) at concrete profiles and stages, exercising the
closing acknowledgment, all three slot stages and the fallback. -/
theorem C5_next_questions_witness :
    generateNextQuestions profileNoPhone "general" =
      ["Thank you! Your profile is complete. Is there anything you" ++ apoS ++
        "d like to update?"] ∧
    generateNextQuestions profileNoEcName "intake" =
      (if presentB (getCol "first_name" profileNoEcName) = false then
        ["What" ++ apoS ++ "s your first name?"]
      else if presentB (getCol "last_name" profileNoEcName) = false then
        ["What" ++ apoS ++ "s your last name?"]
      else if presentB (getCol "date_of_birth" profileNoEcName) = false then
        ["What" ++ apoS ++ "s your date of birth? (MM/DD/YYYY)"]
      else ["Thank you for the information!"]) ∧
    generateNextQuestions profileNoEcName "address" =
      (if presentB (getCol "street_address" profileNoEcName) = false then
        ["What" ++ apoS ++ "s your street address?"]
      else if presentB (getCol "city" profileNoEcName) = false then
        ["What city do you live in?"]
      else if presentB (getCol "zip_code" profileNoEcName) = false then
        ["What" ++ apoS ++ "s your ZIP code?"]
      else ["Thank you for the information!"]) ∧
    generateNextQuestions profileNoEcName "emergency_contact" =
      (if presentB (getCol "emergency_contact_1_name" profileNoEcName) = false then
        ["Who should we contact in case of emergency?"]
      else if presentB (getCol "emergency_contact_1_phone" profileNoEcName) = false then
        ["What" ++ apoS ++ "s their phone number?"]
      else ["Thank you for the information!"]) ∧
    ∃ fl rest, getMissingProfileInfo profileNoEcName = fl :: rest ∧
      generateNextQuestions profileNoEcName "general" =
        ["Could you provide your " ++ fl.2.toLower ++ "?"] :=
  ⟨(C5_next_questions profileNoPhone "general").1 rfl,
   (C5_next_questions profileNoEcName "intake").2.1 (by decide) rfl,
   (C5_next_questions profileNoEcName "address").2.2.1 (by decide) rfl,
   (C5_next_questions profileNoEcName "emergency_contact").2.2.2.1 (by decide) rfl,
   (C5_next_questions profileNoEcName "general").2.2.2.2 (by decide) (by decide)
     (by decide) (by decide)⟩

/-! ## C6 -/

/-- Overwriting with a non-blank fragment value preserves field presence. -/
theorem presentB_mergeField {x old : Option String}
    (hx : (x.all fun s => !(trimL s.toList).isEmpty) = true)
    (h : presentB old = true) : presentB (mergeField x old) = true := by
  cases x with
  | none => exact h
  | some s => simpa [mergeField, presentB] using hx

/-- Per-column contribution: overwriting with a non-blank value never loses the
weight of a present column. -/
theorem weight_le_mergeField {x old : Option String}
    (hx : (x.all fun s => !(trimL s.toList).isEmpty) = true) (w : Nat) :
    (if presentB old then w else 0) ≤ (if presentB (mergeField x old) then w else 0) := by
  by_cases hp : presentB old = true
  · rw [if_pos hp, if_pos (presentB_mergeField hx hp)]
  · rw [if_neg hp]
    exact Nat.zero_le _

/-- Rounding is monotone in the achieved score. -/
theorem jsRoundPct_mono {n1 n2 d : Nat} (h : n1 ≤ n2) :
    jsRoundPct n1 d ≤ jsRoundPct n2 d := by
  unfold jsRoundPct
  apply Nat.div_le_div_right
  omega

/-- C6: merging a fragment whose values are all non-blank never decreases the
completion percentage. -/
theorem C6_completion_monotone (now : Nat) (p : Profile) (f : Fragment)
    (h : nonBlankFragment f = true) :
    calculateCompletionPercentage p ≤
      calculateCompletionPercentage (updateProfileData now p f) := by
  unfold calculateCompletionPercentage
  have hmax : completionMaxScore > 0 := by decide
  rw [if_pos hmax, if_pos hmax]
  apply jsRoundPct_mono
  by_cases hm : hasMappedField f
  case neg =>
    rw [updateProfileData, if_neg (by simpa using hm)]
  case pos =>
    simp only [nonBlankFragment, Bool.and_eq_true] at h
    obtain ⟨⟨⟨⟨⟨⟨⟨⟨⟨⟨⟨⟨⟨⟨⟨⟨⟨⟨⟨⟨⟨⟨⟨⟨⟨⟨⟨h1, h2⟩, h3⟩, h4⟩, h5⟩, h6⟩, h7⟩, h8⟩,
      h9⟩, h10⟩, h11⟩, h12⟩, h13⟩, h14⟩, h15⟩, h16⟩, h17⟩, h18⟩, h19⟩, h20⟩,
      h21⟩, h22⟩, h23⟩, h24⟩, h25⟩, h26⟩, h27⟩, h28⟩ := h
    rw [updateProfileData, if_pos hm]
    unfold completionScore tierScore requiredFields importantFields optionalFields
    simp only [List.foldl_cons, List.foldl_nil, getCol]
    simp only [String.reduceEq, if_true, if_false, reduceIte]
    gcongr <;>
      first
      | rfl
      | exact weight_le_mergeField h1 _
      | exact weight_le_mergeField h2 _
      | exact weight_le_mergeField h3 _
      | exact weight_le_mergeField h4 _
      | exact weight_le_mergeField h5 _
      | exact weight_le_mergeField h6 _
      | exact weight_le_mergeField h7 _
      | exact weight_le_mergeField h8 _
      | exact weight_le_mergeField h9 _
      | exact weight_le_mergeField h10 _
      | exact weight_le_mergeField h11 _
      | exact weight_le_mergeField h12 _
      | exact weight_le_mergeField h13 _
      | exact weight_le_mergeField h14 _
      | exact weight_le_mergeField h15 _
      | exact weight_le_mergeField h16 _
      | exact weight_le_mergeField h17 _
      | exact weight_le_mergeField h18 _
      | exact weight_le_mergeField h19 _
      | exact weight_le_mergeField h20 _

/-- Witness for C6 at a concrete non-blank fragment. -/
theorem C6_completion_monotone_witness :
    nonBlankFragment annFragment = true ∧
    calculateCompletionPercentage blankProfile ≤
      calculateCompletionPercentage (updateProfileData 1 blankProfile annFragment) :=
  ⟨by decide, C6_completion_monotone 1 blankProfile annFragment (by decide)⟩

/-! ## C10 -/

/-- C10 counterexample: the input "1/2/345-678-9012" has a slash-delimited
date match (the span "1/2/345", which detect reports), yet mask_partial
rewrites "345-678-9012" as a phone number, so the date span does not occur
anywhere in the output "1/2/XXX-XXX-9012" — it is not returned unchanged. -/
theorem C10_counterexample :
    hasMatch matchDate none "1/2/345-678-9012".toList = true ∧
    maskPartial "1/2/345-678-9012".toList = "1/2/XXX-XXX-9012".toList ∧
    includesL "1/2/345".toList "1/2/345-678-9012".toList = true ∧
    includesL "1/2/345".toList (maskPartial "1/2/345-678-9012".toList) = false := by
  decide

/-- C10 (amended): mask_partial rewrites only spans its three rewrite
patterns match; a card-shaped or date-shaped segment of the input that no
rewrite pattern match overlaps — in the original text for the SSN pass, and
at each of its occurrence positions in the intermediate texts for the phone
and email passes — is returned contiguously unchanged in the mask_partial
output. -/
theorem C10_mask_partial_frame (s l x r : List Char)
    (h0 : s = l ++ x ++ r)
    (_hshape : cardShape x = true ∨ dateShape x = true)
    (h1 : untouchedSeg matchSSN s l.length x.length = true)
    (h2 : ∀ i, i ≤ (replaceAllWith matchSSN repSSNMask s).length →
      ((replaceAllWith matchSSN repSSNMask s).drop i).take x.length = x →
      untouchedSeg matchPhoneMask (replaceAllWith matchSSN repSSNMask s) i
        x.length = true)
    (h3 : ∀ i, i ≤ (replaceAllWith matchPhoneMask repPhoneMask
        (replaceAllWith matchSSN repSSNMask s)).length →
      ((replaceAllWith matchPhoneMask repPhoneMask
        (replaceAllWith matchSSN repSSNMask s)).drop i).take x.length = x →
      untouchedSeg matchEmailMask (replaceAllWith matchPhoneMask repPhoneMask
        (replaceAllWith matchSSN repSSNMask s)) i x.length = true) :
    ∃ lf rf, maskPartial s = lf ++ x ++ rf := by
  obtain ⟨l1, r1, ho1⟩ := surv matchSSN repSSNMask s l x r h0 h1
  have hlen1 : l1.length ≤ (replaceAllWith matchSSN repSSNMask s).length := by
    rw [ho1, List.length_append, List.length_append]
    omega
  have htake1 : ((replaceAllWith matchSSN repSSNMask s).drop l1.length).take
      x.length = x := by
    rw [ho1, List.append_assoc, List.drop_left, List.take_left]
  obtain ⟨l2, r2, ho2⟩ := surv matchPhoneMask repPhoneMask _ l1 x r1 ho1
    (h2 l1.length hlen1 htake1)
  have hlen2 : l2.length ≤ (replaceAllWith matchPhoneMask repPhoneMask
      (replaceAllWith matchSSN repSSNMask s)).length := by
    rw [ho2, List.length_append, List.length_append]
    omega
  have htake2 : ((replaceAllWith matchPhoneMask repPhoneMask
      (replaceAllWith matchSSN repSSNMask s)).drop l2.length).take
      x.length = x := by
    rw [ho2, List.append_assoc, List.drop_left, List.take_left]
  obtain ⟨l3, r3, ho3⟩ := surv matchEmailMask repEmailMask _ l2 x r2 ho2
    (h3 l2.length hlen2 htake2)
  exact ⟨l3, r3, ho3⟩

theorem C10_mask_partial_frame_witness :
    ∃ lf rf, maskPartial "n 1234 5678 9012 3456 k".toList =
      lf ++ "1234 5678 9012 3456".toList ++ rf :=
  C10_mask_partial_frame "n 1234 5678 9012 3456 k".toList "n ".toList
    "1234 5678 9012 3456".toList " k".toList (by decide) (Or.inl (by decide))
    (by decide) (by decide) (by decide)

end KK
